import Mathlib

/-!
Shallow embedding of `src/mlrun/api/initial_data.py`: the startup data-migration
orchestrator of the mlrun API server.  Pure translations of the source functions
(store state passed explicitly, SQLAlchemy reads/writes modelled as list
operations, exceptions modelled with `Except`), followed by theorems about the
claims of the specification.

Modelling conventions, fixed once here:
* A data version is an `Int` (the source stores it as text and reads it back
  through `int(...)`; only integer values are ever written by this module).
* `datetime` values are modelled as `Nat`, with `0` playing the part of
  `datetime.datetime.min` (the sentinel the source's tie-break loop starts
  from, and the encoding of "no update time").
* Python's `logger.info/warning` calls that the specification treats as
  observable diagnostics are modelled as emitted `LogEntry` values; purely
  decorative debug logs are not modelled.
* SQLAlchemy exceptions that the source catches are modelled as values
  (`CaughtExc`); exceptions that escape a function make it return `Except`.
-/

namespace InitialData

/-- Canonical project states (`mlrun.api.schemas.ProjectState`); `online` is the
canonical value used by the enrichment pass. -/
inductive ProjectState where
  | online
  | archived
deriving DecidableEq, Repr

/-- A project row: `spec.desired_state` and `status.state`, both historically
nullable (`none` models a null/empty value, which is falsy in the source). -/
structure Project where
  name : String
  spec_desired_state : Option ProjectState
  status_state : Option ProjectState
deriving DecidableEq, Repr

/-- One `schema.fields` entry of a dataset payload: a dict whose `name` key may
be absent (`field.get("name")` then yields `None`); other content is opaque. -/
structure SchemaField where
  name : Option String
  blob : Nat
deriving DecidableEq, Repr

/-- The dataset-preview part of an artifact `struct` payload.  Absent keys and
empty values are both falsy in the source, so both are modelled as `[]`. -/
structure DatasetPayload where
  header : List String
  preview : List (List Nat)
  stats : List (String × Nat)
  schemaFields : List SchemaField
deriving DecidableEq, Repr

/-- An artifact `struct` payload: a dataset payload, a payload of some other
kind (skipped by the preview pass), or a malformed payload whose processing
raises (any shape error inside the per-artifact `try` of
`_fix_datasets_large_previews`). -/
inductive Payload where
  | dataset (d : DatasetPayload)
  | other (kind : String)
  | malformed
deriving DecidableEq, Repr

/-- An artifact row (`mlrun.api.db.sqldb.models.Artifact`): record id, project,
key, uid, `updated` timestamp and the `struct` payload. -/
structure Artifact where
  id : Nat
  project : String
  key : String
  uid : String
  updated : Nat
  struct : Payload
deriving DecidableEq, Repr

/-- An artifact tag row (`Artifact.Tag`): record id, tag name and the id of the
referenced artifact row (`obj_id`). -/
structure Tag where
  id : Nat
  name : String
  obj_id : Nat
deriving DecidableEq, Repr

/-- Diagnostics the specification treats as observable (`logger.info` branch
markers of the resolver and the `logger.warning` calls of the repair passes). -/
inductive LogEntry where
  | noProjectsAssumingLatest
  | noSuchTableAssumingPrior
  | rowMissingAssumingPrior
  | orphanTag (tagId : Nat)
  | sameUpdateTime (artifactIds : List Nat)
  | noUpdateTime (artifactIds : List Nat)
  | shortPreviewRow
  | failedFixingDataset
deriving DecidableEq, Repr

/-- `data_version_prior_to_table_addition = 1` (source line 44). -/
def data_version_prior_to_table_addition : Int := 1

/-- `latest_data_version = 1` (source line 45). -/
def latest_data_version : Int := 1

/-- Whether the char list `pat` is an initial segment of `s`. -/
def charsLead : List Char → List Char → Bool
  | [], _ => true
  | _ :: _, [] => false
  | p :: ps, c :: cs => p == c && charsLead ps cs

/-- Whether the char list `pat` occurs contiguously inside `s`. -/
def charsContain (s pat : List Char) : Bool :=
  match s with
  | [] => charsLead pat []
  | _ :: rest => charsLead pat s || charsContain rest pat

/-- Python's substring test `pat in s` on strings. -/
def strContains (s pat : String) : Bool :=
  charsContain s.data pat.data

/-- The exception kinds caught by `_resolve_current_data_version` (source line
340): `sqlalchemy.exc.OperationalError` and `mlrun.errors.MLRunNotFoundError`,
each carrying its message (`str(exc)`). -/
inductive CaughtExc where
  | opError (msg : String)
  | notFound (msg : String)
deriving DecidableEq, Repr

/-- `str(exc)` of a caught exception. -/
def CaughtExc.msg : CaughtExc → String
  | .opError m => m
  | .notFound m => m

/-- `_resolve_current_data_version` (source lines 335-369).  Inputs are the
outcome of `db.get_current_data_version` (a value, or one of the two caught
exception kinds; any other exception escapes before this logic runs) and the
outcome of `db.list_projects` (`none` models the `OperationalError` caught at
source line 343).  Returns the emitted diagnostics and the resolved version, or
re-raises the caught exception (source line 369). -/
def resolveCurrentDataVersion (markerRead : Except CaughtExc Int)
    (projectsRead : Option (List Project)) : List LogEntry × Except CaughtExc Int :=
  match markerRead with
  | .ok v => ([], .ok v)
  | .error exc =>
    let noProjects : Bool :=
      match projectsRead with
      | none => true
      | some ps => ps.isEmpty
    if noProjects then
      ([.noProjectsAssumingLatest], .ok latest_data_version)
    else if strContains exc.msg "no such table" then
      ([.noSuchTableAssumingPrior], .ok data_version_prior_to_table_addition)
    else
      match exc with
      | .notFound _ => ([.rowMissingAssumingPrior], .ok data_version_prior_to_table_addition)
      | _ => ([], .error exc)

/-- The per-project body of `_enrich_project_state` (source lines 279-292):
returns the (possibly) enriched project and the `changed` flag deciding whether
`db.store_project` is called. -/
def enrichProject (p : Project) : Project × Bool :=
  let r1 : Project × Bool :=
    if p.spec_desired_state.isNone then
      ({ p with spec_desired_state := some ProjectState.online }, true)
    else (p, false)
  let r2 : Project × Bool :=
    if r1.1.status_state.isNone then
      ({ r1.1 with status_state := r1.1.spec_desired_state }, true)
    else (r1.1, false)
  (r2.1, r1.2 || r2.2)

/-- `_enrich_project_state` (source lines 274-292): the new project table and
the names of the projects that were persisted (`db.store_project` is called
exactly for the projects whose `changed` flag is set). -/
def enrichProjectState (projects : List Project) : List Project × List String :=
  (projects.map (fun p => (enrichProject p).1),
   (projects.filter (fun p => (enrichProject p).2)).map (fun p => p.name))

/-- The artifact-record-id dict `{artifact.id: artifact for artifact in
artifacts}` (source line 191): on duplicate ids the later entry wins, so the
lookup scans the reversed list. -/
def dictLookup (artifacts : List Artifact) (oid : Nat) : Option Artifact :=
  artifacts.reverse.find? (fun a => a.id == oid)

/-- The inner tag-collection loop of `_fix_artifact_tags_duplications` (source
lines 199-205): walk all tags; an orphan tag (obj_id absent from the artifact
map) is first warned about and then hits a `KeyError` on the map subscript at
source line 204, aborting the pass; otherwise the tag is kept when its
artifact's key equals `key`.  Returns the emitted diagnostics together with the
collected tags or the error. -/
def collectKeyTags (artifacts : List Artifact) (key : String) :
    List Tag → List LogEntry × Except Unit (List Tag)
  | [] => ([], .ok [])
  | t :: rest =>
    match dictLookup artifacts t.obj_id with
    | none => ([.orphanTag t.id], .error ())
    | some a =>
      match collectKeyTags artifacts key rest with
      | (logs, .error e) => (logs, .error e)
      | (logs, .ok ts) => (logs, .ok (if a.key == key then t :: ts else ts))

/-- The scanning loop of `_find_last_updated_artifact` (source lines 240-246):
state is (`last_updated_artifact`, `last_updated_artifact_time`,
`artifacts_with_same_update_time`); only a strictly later `updated` replaces
the current best. -/
def findLastUpdatedLoop :
    List Artifact → Option Artifact → Nat → List Artifact →
      Option Artifact × Nat × List Artifact
  | [], last, t, same => (last, t, same)
  | a :: rest, last, t, same =>
    if t < a.updated then findLastUpdatedLoop rest (some a) a.updated [a]
    else if a.updated == t then findLastUpdatedLoop rest last t (same ++ [a])
    else findLastUpdatedLoop rest last t same

/-- `_find_last_updated_artifact` (source lines 231-263).  `RuntimeError` on an
empty input; otherwise the winner plus the ambiguity / no-update-time
diagnostics.  `0` models `datetime.datetime.min`. -/
def findLastUpdatedArtifact (artifacts : List Artifact) :
    List LogEntry × Except Unit Artifact :=
  match artifacts with
  | [] => ([], .error ())
  | a0 :: _ =>
    match findLastUpdatedLoop artifacts none 0 [] with
    | (last, _, same) =>
      let logs1 : List LogEntry :=
        if 1 < same.length then [.sameUpdateTime (same.map (fun a => a.id))] else []
      match last with
      | some la => (logs1, .ok la)
      | none => (logs1 ++ [.noUpdateTime (artifacts.map (fun a => a.id))], .ok a0)

/-- `tag_name_tags_map` insertion order (source lines 206-208): the distinct tag
names of a list, in order of first occurrence. -/
def tagNames (ts : List Tag) : List String :=
  ts.foldl (fun acc t => if acc.contains t.name then acc else acc ++ [t.name]) []

/-- `[artifact_record_id_map[tag.obj_id] for tag in _tags]` (source line 212):
the referenced artifacts in tag order, failing (`KeyError`) at the first
missing id. -/
def lookupAll (artifacts : List Artifact) : List Tag → Option (List Artifact)
  | [] => some []
  | t :: rest =>
    match dictLookup artifacts t.obj_id with
    | none => none
    | some a =>
      match lookupAll artifacts rest with
      | none => none
      | some as => some (a :: as)

/-- The group loop of `_fix_artifact_tags_duplications` (source lines 209-216):
for each tag name of `keyTags`, skip singleton groups, otherwise look the
group's artifacts up (source line 212; a miss would be a `KeyError`), pick the
last-updated one and mark every tag of the group not referencing it for
deletion.  Returns the diagnostics and the accumulated `tags_to_delete`
contribution. -/
def processGroups (artifacts : List Artifact) (keyTags : List Tag) :
    List String → List LogEntry × Except Unit (List Tag)
  | [] => ([], .ok [])
  | n :: rest =>
    let group := keyTags.filter (fun t => t.name == n)
    if group.length == 1 then processGroups artifacts keyTags rest
    else
      match lookupAll artifacts group with
      | none => ([], .error ())
      | some tagsArtifacts =>
        match findLastUpdatedArtifact tagsArtifacts with
        | (logsW, .error e) => (logsW, .error e)
        | (logsW, .ok winner) =>
          let losers := group.filter (fun t => !(t.obj_id == winner.id))
          match processGroups artifacts keyTags rest with
          | (logs2, .error e) => (logsW ++ logs2, .error e)
          | (logs2, .ok ds) => (logsW ++ logs2, .ok (losers ++ ds))

/-- The body of one `(project, artifact_key)` iteration of
`_fix_artifact_tags_duplications` (source lines 198-216).  The project is not
consulted: the tag filter at source line 204 compares keys only. -/
def processProjectKey (artifacts : List Artifact) (tags : List Tag) (key : String) :
    List LogEntry × Except Unit (List Tag) :=
  match collectKeyTags artifacts key tags with
  | (logs, .error e) => (logs, .error e)
  | (logs, .ok keyTags) =>
    match processGroups artifacts keyTags (tagNames keyTags) with
    | (logs2, r) => (logs ++ logs2, r)

/-- The distinct elements of a list in order of first occurrence — the model of
iterating a Python set built from the list (sources lines 193-197; set order is
unspecified in Python, and the delete set computed by the pass does not depend
on it). -/
def distinctInOrder (l : List String) : List String :=
  l.foldl (fun acc x => if acc.contains x then acc else acc ++ [x]) []

/-- `projects = {artifact.project for artifact in artifacts}` (source line 193). -/
def artifactProjects (artifacts : List Artifact) : List String :=
  distinctInOrder (artifacts.map (fun a => a.project))

/-- `artifact_keys` of one project (source lines 195-197). -/
def artifactKeysOf (artifacts : List Artifact) (p : String) : List String :=
  distinctInOrder ((artifacts.filter (fun a => a.project == p)).map (fun a => a.key))

/-- All `(project, artifact_key)` pairs the pass iterates (source lines 194-198). -/
def projectKeyPairs (artifacts : List Artifact) : List (String × String) :=
  (artifactProjects artifacts).flatMap
    (fun p => (artifactKeysOf artifacts p).map (fun k => (p, k)))

/-- The outer loop of `_fix_artifact_tags_duplications`: accumulate
`tags_to_delete` over all `(project, key)` pairs, aborting at the first
exception. -/
def dedupLoop (artifacts : List Artifact) (tags : List Tag) :
    List (String × String) → List LogEntry × Except Unit (List Tag)
  | [] => ([], .ok [])
  | (_, k) :: rest =>
    match processProjectKey artifacts tags k with
    | (logs, .error e) => (logs, .error e)
    | (logs, .ok ds) =>
      match dedupLoop artifacts tags rest with
      | (logs2, .error e) => (logs ++ logs2, .error e)
      | (logs2, .ok ds2) => (logs ++ logs2, .ok (ds ++ ds2))

/-- `_fix_artifact_tags_duplications` (source lines 182-228): compute
`tags_to_delete`, then delete those rows in one batch; the surviving tag rows
(identified by record id) are returned in their original order. -/
def fixArtifactTagsDuplications (artifacts : List Artifact) (tags : List Tag) :
    List LogEntry × Except Unit (List Tag) :=
  match dedupLoop artifacts tags (projectKeyPairs artifacts) with
  | (logs, .error e) => (logs, .error e)
  | (logs, .ok toDelete) =>
    (logs, .ok (tags.filter (fun t => !(toDelete.any (fun d => d.id == t.id)))))

/-- `mlrun.artifacts.dataset.max_preview_columns`.  Modelled from the spec: the
fixed maximum preview column count N; the constant lives in
`mlrun/artifacts/dataset.py`, which is not part of this repository snapshot
(its value there is 20).  The preview-pass functions take N as a parameter and
are instantiated with this constant where the orchestrator calls them. -/
def max_preview_columns : Nat := 20

/-- The payload rewrite of `_fix_datasets_large_previews` for one dataset
payload (source lines 115-163), parametric in the column bound `N`: when the
header is non-empty and longer than `N`, truncate the preview rows (warning
about rows already shorter than `N` and leaving them as they are), drop the
removed columns from `stats` and `schema.fields`, and truncate the header;
otherwise the payload is untouched. -/
def fixDatasetPayload (N : Nat) (d : DatasetPayload) : DatasetPayload × List LogEntry :=
  if !d.header.isEmpty && N < d.header.length then
    let columnsToRemove := d.header.drop N
    let previewLogs : List LogEntry :=
      (d.preview.filter (fun row => row.length < N)).map (fun _ => .shortPreviewRow)
    let preview' :=
      if !d.preview.isEmpty then d.preview.map (fun row => row.take N) else d.preview
    let stats' := d.stats.filter (fun kv => !(columnsToRemove.contains kv.1))
    let fields' :=
      if !d.schemaFields.isEmpty then
        d.schemaFields.filter (fun f =>
          match f.name with
          | some nm => !(columnsToRemove.contains nm)
          | none => true)
      else d.schemaFields
    ({ header := d.header.take N, preview := preview', stats := stats',
       schemaFields := fields' },
     if d.preview.isEmpty then [] else previewLogs)
  else (d, [])

/-- The per-artifact `try` body of `_fix_datasets_large_previews` (source lines
109-175): a malformed payload raises; a non-dataset payload is skipped; a
dataset payload is rewritten (and re-stored without re-tagging when changed). -/
def fixArtifactPreview (N : Nat) (a : Artifact) : List LogEntry × Except Unit Artifact :=
  match a.struct with
  | .malformed => ([], .error ())
  | .other _ => ([], .ok a)
  | .dataset d =>
    match fixDatasetPayload N d with
    | (d', logs) => (logs, .ok { a with struct := .dataset d' })

/-- `_fix_datasets_large_previews` (source lines 102-179): every artifact is
processed independently; a raising item is logged
(`"Failed fixing dataset artifact large preview. Continuing"`) and left
unchanged, and processing continues with the remaining artifacts. -/
def fixDatasetsLargePreviews (N : Nat) : List Artifact → List Artifact × List LogEntry
  | [] => ([], [])
  | a :: rest =>
    let step : Artifact × List LogEntry :=
      match fixArtifactPreview N a with
      | (logs, .ok b) => (b, logs)
      | (logs, .error _) => (a, logs ++ [.failedFixingDataset])
    match fixDatasetsLargePreviews N rest with
    | (rest', logsR) => (step.1 :: rest', step.2 ++ logsR)

/-- The relational store state this module reads and writes: the data-version
marker row (`none` = row absent; after `_perform_schema_migrations` the table
itself exists), the project/artifact/tag tables and the presence of the default
marketplace source row. -/
structure Store where
  dataVersion : Option Int
  projects : List Project
  artifacts : List Artifact
  tags : List Tag
  hubSource : Bool
deriving DecidableEq, Repr

/-- The configuration switches this module consults (`mlrun.config.config`),
plus the `from_scratch` argument of `init_data`. -/
structure Config where
  fromScratch : Bool
  databaseMigrationEnabled : Bool
  dataMigrationsEnabled : Bool
  createDefaultSource : Bool
deriving DecidableEq, Repr

/-- Observable stages of one orchestrator run: external calls and store writes,
in execution order. -/
inductive Stage where
  | versionResolution
  | applySchema
  | legacyTransfer
  | seedDefaults
  | initialMarkerWrite
  | repairEnrich
  | repairDedup
  | repairPreviews
  | markerWriteLatest
deriving DecidableEq, Repr

/-- The message of the `MLRunNotFoundError` raised by
`db.get_current_data_version` when the marker row is absent. -/
def dataVersionNotFoundMsg : String := "Data version not found"

/-- Reading the marker in a store whose schema is already migrated (the table
exists): a value, or the not-found error for a missing row. -/
def storeMarkerRead (s : Store) : Except CaughtExc Int :=
  match s.dataVersion with
  | some v => .ok v
  | none => .error (.notFound dataVersionNotFoundMsg)

/-- `_add_default_marketplace_source_if_needed` (source lines 295-321): add the
default source row when it is absent and the configuration says to create one
(`generate_default_source` returns `None` otherwise). -/
def addDefaultMarketplaceSource (cfg : Config) (s : Store) : Store × List Stage :=
  if !s.hubSource && cfg.createDefaultSource then
    ({ s with hubSource := true }, [.seedDefaults])
  else (s, [])

/-- `_add_data_version` (source lines 324-332): when no marker row exists,
resolve the current version and create the marker.  Resolution re-reads the
marker (raising the not-found error) and lists the projects, which succeeds in
a live store. -/
def addDataVersion (s : Store) : List Stage × Except CaughtExc Store :=
  match s.dataVersion with
  | some _ => ([], .ok s)
  | none =>
    match resolveCurrentDataVersion (storeMarkerRead s) (some s.projects) with
    | (_, .ok v) => ([.versionResolution, .initialMarkerWrite],
                     .ok { s with dataVersion := some v })
    | (_, .error e) => ([.versionResolution], .error e)

/-- `_add_initial_data` (source lines 95-99): seed the default marketplace
source, then create the data-version marker if needed — in that order. -/
def addInitialData (cfg : Config) (s : Store) : List Stage × Except CaughtExc Store :=
  ((addDefaultMarketplaceSource cfg s).2 ++
      (addDataVersion (addDefaultMarketplaceSource cfg s).1).1,
   (addDataVersion (addDefaultMarketplaceSource cfg s).1).2)

/-- `_perform_version_1_data_migrations` (source lines 266-271): project state
enrichment, then tag deduplication (which can raise, aborting the run), then
dataset preview truncation.  Each repair stage is recorded when it starts. -/
def performVersion1DataMigrations (s : Store) : List Stage × Except Unit Store :=
  let s1 : Store := { s with projects := (enrichProjectState s.projects).1 }
  match (fixArtifactTagsDuplications s1.artifacts s1.tags).2 with
  | .error e => ([.repairEnrich, .repairDedup], .error e)
  | .ok survivors =>
    let s2 : Store := { s1 with tags := survivors }
    let s3 : Store :=
      { s2 with artifacts := (fixDatasetsLargePreviews max_preview_columns s2.artifacts).1 }
    ([.repairEnrich, .repairDedup, .repairPreviews], .ok s3)

/-- `_perform_data_migrations` (source lines 79-92): when data migrations are
enabled, read the marker (raising if absent), and when it differs from
`latest_data_version` run the version-1 repair passes if the version is below 1
and finally overwrite the marker with the latest version. -/
def performDataMigrations (cfg : Config) (s : Store) : List Stage × Except Unit Store :=
  if cfg.dataMigrationsEnabled then
    match s.dataVersion with
    | none => ([], .error ())
    | some v =>
      if v == latest_data_version then ([], .ok s)
      else
        match (if v < 1 then performVersion1DataMigrations s else ([], .ok s)) with
        | (tr, .error e) => (tr, .error e)
        | (tr, .ok s1) =>
          (tr ++ [.markerWriteLatest], .ok { s1 with dataVersion := some latest_data_version })
  else ([], .ok s)

/-- `init_data` (source lines 24-38).  `_perform_schema_migrations` first
resolves the current data version (the `_is_latest_data_version()` argument at
source line 57) and then applies the alembic schema migration;
`_perform_database_migration` runs the legacy SQLite transfer when enabled and
not starting from scratch.  Both are external collaborators (modelled from the
spec: opaque calls that leave the data model unchanged), so they contribute
trace stages only.  Then `_add_initial_data` and `_perform_data_migrations`
run on the store.  Errors propagate (`CaughtExc` re-raises and repair-pass
failures are collapsed into `Unit`). -/
def initData (cfg : Config) (s : Store) : List Stage × Except Unit Store :=
  match (addInitialData cfg s).2 with
  | .error _ =>
    ([Stage.versionResolution, Stage.applySchema] ++
      (if !cfg.fromScratch && cfg.databaseMigrationEnabled
        then [Stage.legacyTransfer] else []) ++
      (addInitialData cfg s).1, .error ())
  | .ok s1 =>
    ([Stage.versionResolution, Stage.applySchema] ++
      (if !cfg.fromScratch && cfg.databaseMigrationEnabled
        then [Stage.legacyTransfer] else []) ++
      (addInitialData cfg s).1 ++ (performDataMigrations cfg s1).1,
     (performDataMigrations cfg s1).2)

/-! ### Specification-side derived definitions used by the theorems -/

/-- The maximum of the `updated` timestamps of a list of artifacts
(`0` = `datetime.min`). -/
def maxUpd : List Artifact → Nat
  | [] => 0
  | a :: rest => max a.updated (maxUpd rest)

/-- The first artifact of the list attaining the maximal `updated` timestamp —
the tie-break the source's scanning loop implements. -/
def firstMaxArtifact (l : List Artifact) : Option Artifact :=
  l.find? (fun a => a.updated == maxUpd l)

/-- The outcome of one artifact of the preview pass: the rewritten artifact, or
the artifact unchanged when its processing raised. -/
def itemRepair (N : Nat) (a : Artifact) : Artifact :=
  match fixArtifactPreview N a with
  | (_, .ok b) => b
  | (_, .error _) => a

/-- Whether tag `t` is collected for artifact key `k`: the test of source line
204 (the referenced artifact's key equals `k`; the project is not compared). -/
def tagKeyMatches (artifacts : List Artifact) (k : String) (t : Tag) : Bool :=
  match dictLookup artifacts t.obj_id with
  | some a => a.key == k
  | none => false

/-- Whether tag `t` belongs to the key-wide name group: it is named `n` and
references an artifact whose key is `k` (any project — the grouping the pass
actually computes). -/
def inKeyNameGroup (artifacts : List Artifact) (k n : String) (t : Tag) : Bool :=
  t.name == n && tagKeyMatches artifacts k t

/-- Whether tag `t` belongs to the `(project, key, tag-name)` group of the
specification: it is named `n` and references an artifact of project `p` with
key `k`. -/
def tagInGroup (artifacts : List Artifact) (p k n : String) (t : Tag) : Bool :=
  t.name == n &&
    (match dictLookup artifacts t.obj_id with
     | some a => a.project == p && a.key == k
     | none => false)

/-- The artifacts referenced by a list of tags, in tag order. -/
def groupArtifactsOf (artifacts : List Artifact) (g : List Tag) : List Artifact :=
  g.filterMap (fun t => dictLookup artifacts t.obj_id)

/-- The winning artifact of a tag group: first artifact with maximal `updated`
among the referenced ones, in tag order. -/
def groupWinner (artifacts : List Artifact) (g : List Tag) : Option Artifact :=
  firstMaxArtifact (groupArtifactsOf artifacts g)

/-- The tags the pass marks for deletion within the name-`n` group of
`keyTags`: nothing for a singleton group, otherwise every tag of the group not
referencing the winner. -/
def groupLosers (artifacts : List Artifact) (keyTags : List Tag) (n : String) : List Tag :=
  let group := keyTags.filter (fun t => t.name == n)
  if group.length == 1 then []
  else
    match groupWinner artifacts group with
    | some w => group.filter (fun t => !(t.obj_id == w.id))
    | none => []

/-- The tags marked for deletion while processing artifact key `k`. -/
def keyLosers (artifacts : List Artifact) (tags : List Tag) (k : String) : List Tag :=
  let keyTags := tags.filter (tagKeyMatches artifacts k)
  (tagNames keyTags).flatMap (groupLosers artifacts keyTags)

/-- The full `tags_to_delete` list of the pass. -/
def toDeleteOf (artifacts : List Artifact) (tags : List Tag) : List Tag :=
  (projectKeyPairs artifacts).flatMap (fun pk => keyLosers artifacts tags pk.2)

/-- The tag rows surviving the pass. -/
def survivorsOf (artifacts : List Artifact) (tags : List Tag) : List Tag :=
  tags.filter (fun t => !((toDeleteOf artifacts tags).any (fun d => d.id == t.id)))

/-- Store well-formedness the deduplication arguments rely on: artifact record
ids are unique (primary key), tag record ids are unique (primary key), every
tag references an existing artifact (no orphans — the pass raises otherwise),
and no two tag rows share `(name, obj_id)` (the unique constraint of the
`artifact_tags` table). -/
abbrev DedupWF (artifacts : List Artifact) (tags : List Tag) : Prop :=
  (artifacts.map (fun a => a.id)).Nodup ∧
  (tags.map (fun t => t.id)).Nodup ∧
  (∀ t ∈ tags, (dictLookup artifacts t.obj_id).isSome) ∧
  (tags.map (fun t => (t.name, t.obj_id))).Nodup

/-- No artifact key is used by two different projects.  Without this the pass
mixes same-key groups of different projects (source line 204 compares keys
only). -/
abbrev ProjectKeysDisjoint (artifacts : List Artifact) : Prop :=
  ∀ a ∈ artifacts, ∀ b ∈ artifacts, a.key = b.key → a.project = b.project

/-- The fixed relative order of the observable stages of one orchestrator run. -/
def masterStageOrder : List Stage :=
  [.versionResolution, .applySchema, .legacyTransfer, .seedDefaults,
   .versionResolution, .initialMarkerWrite,
   .repairEnrich, .repairDedup, .repairPreviews, .markerWriteLatest]

/-! ### Concrete stores used by counterexamples, failing inputs and witnesses -/

/-- Project `p1`, key `k`, updated at 5. -/
def cxA1 : Artifact := ⟨1, "p1", "k", "u1", 5, .other "model"⟩

/-- Project `p1`, key `k`, updated at 6. -/
def cxA2 : Artifact := ⟨2, "p1", "k", "u2", 6, .other "model"⟩

/-- Project `p2`, same key `k`, updated at 10. -/
def cxA3 : Artifact := ⟨3, "p2", "k", "u3", 10, .other "model"⟩

/-- Tag `t` on `cxA1`. -/
def cxT1 : Tag := ⟨1, "t", 1⟩

/-- Tag `t` on `cxA2`. -/
def cxT2 : Tag := ⟨2, "t", 2⟩

/-- Tag `t` on `cxA3`. -/
def cxT3 : Tag := ⟨3, "t", 3⟩

/-- First artifact of the full listing; no update time (`datetime.min`). -/
def cxB1 : Artifact := ⟨1, "p", "k", "u1", 0, .other "model"⟩

/-- Second artifact of the full listing; no update time either. -/
def cxB2 : Artifact := ⟨2, "p", "k", "u2", 0, .other "model"⟩

/-- First tag of the listing, referencing the second artifact `cxB2`. -/
def cxS1 : Tag := ⟨1, "t", 2⟩

/-- Second tag of the listing, referencing the first artifact `cxB1`. -/
def cxS2 : Tag := ⟨2, "t", 1⟩

/-- An ordinary artifact for the orphan-tag failing input. -/
def orphanCaseArtifact : Artifact := ⟨1, "p", "k", "u", 0, .other "model"⟩

/-- A tag referencing artifact record id 42, which does not exist. -/
def orphanCaseTag : Tag := ⟨7, "t", 42⟩

/-- A dataset payload whose header is short (1 column) but whose single preview
row has `max_preview_columns + 1` entries. -/
def cxC6Payload : DatasetPayload :=
  ⟨["a"], [List.replicate (max_preview_columns + 1) 0], [], []⟩

/-- The artifact carrying `cxC6Payload`. -/
def cxC6Artifact : Artifact := ⟨1, "p", "k", "u", 0, .dataset cxC6Payload⟩

/-- A dataset payload with 3 columns, used to witness the truncation facts at
bound 2. -/
def wC6Payload : DatasetPayload :=
  ⟨["a", "b", "c"], [[1, 2, 3], [4]], [("a", 1), ("c", 2)], [⟨some "c", 0⟩, ⟨none, 1⟩]⟩

/-- The artifact carrying `wC6Payload`. -/
def wC6Artifact : Artifact := ⟨1, "p", "k", "u", 3, .dataset wC6Payload⟩

/-- An artifact whose payload is malformed: its preview repair raises. -/
def malformedArtifact : Artifact := ⟨9, "p", "k", "u", 0, .malformed⟩

/-- A store at data version 0 with one state-less project: the repair passes do
run on it. -/
def c4Store : Store := ⟨some 0, [⟨"p", none, none⟩], [], [], false⟩

/-- Every switch enabled, not from scratch. -/
def cfgAllOn : Config := ⟨false, true, true, true⟩

/-- A store whose marker holds 5, greater than the latest version 1. -/
def aheadStore : Store := ⟨some 5, [], [], [], true⟩

/-- The store `c4Store` reaches after one full run with everything enabled. -/
def c2Final : Store :=
  ⟨some 1, [⟨"p", some .online, some .online⟩], [], [], true⟩

/-! ### Theorems -/

/-- C1: `_resolve_current_data_version` returns the stored marker value exactly
when the marker is readable (whatever the project listing holds); the latest
known version when the marker read fails and the project listing cannot be
evaluated or yields zero projects — this branch wins even when the failure
message mentions a missing table, which is the load-bearing ordering; and the
pre-tracking constant when the marker read fails, at least one project exists,
and the failure is a missing version table (`"no such table"` in the message)
or a missing version row (`MLRunNotFoundError`). -/
theorem C1_version_resolution (markerRead : Except CaughtExc Int)
    (projectsRead : Option (List Project)) :
    (∀ v, markerRead = .ok v →
      resolveCurrentDataVersion markerRead projectsRead = ([], .ok v)) ∧
    (∀ exc, markerRead = .error exc →
      (projectsRead = none ∨ projectsRead = some [] →
        resolveCurrentDataVersion markerRead projectsRead =
          ([.noProjectsAssumingLatest], .ok latest_data_version)) ∧
      (∀ ps, projectsRead = some ps → ps ≠ [] →
        (strContains exc.msg "no such table" = true →
          resolveCurrentDataVersion markerRead projectsRead =
            ([.noSuchTableAssumingPrior], .ok data_version_prior_to_table_addition)) ∧
        (strContains exc.msg "no such table" = false →
          ∀ m, exc = .notFound m →
            resolveCurrentDataVersion markerRead projectsRead =
              ([.rowMissingAssumingPrior], .ok data_version_prior_to_table_addition)))) := by
  refine ⟨?_, ?_⟩
  · rintro v rfl
    rfl
  · rintro exc rfl
    refine ⟨?_, ?_⟩
    · rintro (rfl | rfl) <;> rfl
    · rintro ps rfl hps
      have hempty : ps.isEmpty = false := by
        cases ps with
        | nil => exact absurd rfl hps
        | cons a l => rfl
      refine ⟨?_, ?_⟩
      · intro hc
        simp [resolveCurrentDataVersion, hempty, hc]
      · rintro hc m rfl
        simp [resolveCurrentDataVersion, hempty, hc]

/-- Witness for C1: the zero-projects branch wins over the missing-table branch
(store empty, message mentioning the missing table ⇒ latest), and a populated
store with a missing version row resolves to the pre-tracking constant. -/
theorem C1_version_resolution_witness :
    resolveCurrentDataVersion
        (.error (.opError "(sqlite3.OperationalError) no such table: data_versions"))
        (some []) = ([.noProjectsAssumingLatest], .ok latest_data_version) ∧
    resolveCurrentDataVersion
        (.error (.notFound dataVersionNotFoundMsg))
        (some [⟨"p", none, none⟩]) =
      ([.rowMissingAssumingPrior], .ok data_version_prior_to_table_addition) := by
  constructor
  · exact ((C1_version_resolution _ _).2 _ rfl).1 (Or.inr rfl)
  · exact (((C1_version_resolution _ _).2 _ rfl).2 _ rfl (by decide)).2 (by decide) _ rfl

/-- The enriched project in closed form: `desired_state` defaults to the
canonical online value, `state` defaults to the resolved `desired_state`. -/
lemma enrichProject_fst (p : Project) :
    (enrichProject p).1 =
      { p with
        spec_desired_state := some (p.spec_desired_state.getD .online),
        status_state := some (p.status_state.getD (p.spec_desired_state.getD .online)) } := by
  cases p with
  | mk nm ds st => cases ds <;> cases st <;> simp [enrichProject]

/-- The `changed` flag is set exactly when one of the two fields was unset. -/
lemma enrichProject_snd (p : Project) :
    (enrichProject p).2 = (p.spec_desired_state.isNone || p.status_state.isNone) := by
  cases p with
  | mk nm ds st => cases ds <;> cases st <;> simp [enrichProject]

/-- C9: after the enrichment pass every project has both `desired_state` and
`state` set; an unset `desired_state` becomes the canonical online value and an
unset `state` becomes the resolved `desired_state`; and exactly the projects
that had an unset field are persisted. -/
theorem C9_project_state_enrichment (projects : List Project) :
    (∀ q ∈ (enrichProjectState projects).1,
        q.spec_desired_state.isSome ∧ q.status_state.isSome) ∧
    (enrichProjectState projects).1 = projects.map (fun p =>
      { p with
        spec_desired_state := some (p.spec_desired_state.getD .online),
        status_state := some (p.status_state.getD (p.spec_desired_state.getD .online)) }) ∧
    (enrichProjectState projects).2 =
      (projects.filter
        (fun p => p.spec_desired_state.isNone || p.status_state.isNone)).map
        (fun p => p.name) := by
  refine ⟨?_, ?_, ?_⟩
  · intro q hq
    rcases List.mem_map.mp hq with ⟨p, _, hpq⟩
    rw [enrichProject_fst] at hpq
    subst hpq
    exact ⟨rfl, rfl⟩
  · exact List.map_congr_left (fun p _ => enrichProject_fst p)
  · unfold enrichProjectState
    rw [List.filter_congr (fun p _ => enrichProject_snd p)]

/-- C5 failing-input evaluation: on a store with one artifact (record id 1) and
one tag referencing the non-existent artifact record 42, the deduplication pass
emits the orphan warning and then aborts with the `KeyError` of source line
204 instead of continuing. -/
theorem C5_orphan_tag_aborts_pass :
    fixArtifactTagsDuplications [orphanCaseArtifact] [orphanCaseTag] =
      ([.orphanTag 7], .error ()) := by
  rfl

/-- C6 counterexample: a dataset artifact whose header has a single column but
whose preview row has `max_preview_columns + 1` entries is left untouched by
the pass (the guard only fires when the header itself is over-long), so a
preview row longer than N survives, contradicting the claimed universal row
bound. -/
theorem C6_preview_row_bound_counterexample :
    (fixDatasetsLargePreviews max_preview_columns [cxC6Artifact]).1 = [cxC6Artifact] ∧
    ¬ (∀ row ∈ cxC6Payload.preview, row.length ≤ max_preview_columns) := by
  constructor
  · rfl
  · intro h
    have := h (List.replicate (max_preview_columns + 1) 0) (by simp [cxC6Payload])
    simp at this

/-- Closed form of the payload rewrite when the header is over-long. -/
lemma fixDatasetPayload_long (N : Nat) (d : DatasetPayload) (hlen : N < d.header.length) :
    (fixDatasetPayload N d).1 =
      { header := d.header.take N,
        preview := d.preview.map (fun row => row.take N),
        stats := d.stats.filter (fun kv => !((d.header.drop N).contains kv.1)),
        schemaFields := d.schemaFields.filter (fun f =>
          match f.name with
          | some nm => !((d.header.drop N).contains nm)
          | none => true) } := by
  have hne : d.header.isEmpty = false := by
    cases hh : d.header with
    | nil => rw [hh] at hlen; simp at hlen
    | cons x xs => rfl
  have hguard : (!d.header.isEmpty && decide (N < d.header.length)) = true := by
    simp [hne, hlen]
  unfold fixDatasetPayload
  rw [if_pos hguard]
  cases hp : d.preview with
  | nil => cases hsf : d.schemaFields <;> simp [hp, hsf]
  | cons y ys => cases hsf : d.schemaFields <;> simp [hp, hsf]

/-- The payload rewrite does nothing when the header is within bounds. -/
lemma fixDatasetPayload_short (N : Nat) (d : DatasetPayload) (hle : d.header.length ≤ N) :
    fixDatasetPayload N d = (d, []) := by
  have hguard : (!d.header.isEmpty && decide (N < d.header.length)) = false := by
    simp [Nat.not_lt.mpr hle]
  unfold fixDatasetPayload
  rw [if_neg (by simp [hguard])]

/-- The preview pass's store effect is the pointwise item repair. -/
lemma fixDatasetsLargePreviews_fst (N : Nat) (artifacts : List Artifact) :
    (fixDatasetsLargePreviews N artifacts).1 = artifacts.map (itemRepair N) := by
  induction artifacts with
  | nil => rfl
  | cons a rest ih =>
    show (fixDatasetsLargePreviews N (a :: rest)).1 = _
    rcases h : fixArtifactPreview N a with ⟨logs, r⟩
    cases r <;>
      simp [fixDatasetsLargePreviews, h, itemRepair, ih]

/-- C6 (amended): the pass processes artifacts pointwise; for a dataset
artifact whose original header exceeds N, the header is truncated to its first
N entries, every preview row ends up with at most N entries, and no `stats` key
or named `schema.fields` entry lies beyond the first N original header
entries; a dataset artifact whose header has at most N entries is left
completely unchanged — so its over-long preview rows (if any) survive. -/
theorem C6_preview_truncation (N : Nat) (artifacts : List Artifact) :
    (fixDatasetsLargePreviews N artifacts).1 = artifacts.map (itemRepair N) ∧
    (∀ a d, a.struct = .dataset d →
      ∃ d', (itemRepair N a).struct = .dataset d' ∧
        (N < d.header.length →
          d'.header = d.header.take N ∧
          (∀ row ∈ d'.preview, row.length ≤ N) ∧
          (∀ kv ∈ d'.stats, kv.1 ∉ d.header.drop N) ∧
          (∀ f ∈ d'.schemaFields, ∀ nm, f.name = some nm → nm ∉ d.header.drop N)) ∧
        (d.header.length ≤ N → itemRepair N a = a)) := by
  constructor
  · exact fixDatasetsLargePreviews_fst N artifacts
  · intro a d hd
    have hitem : itemRepair N a = { a with struct := .dataset (fixDatasetPayload N d).1 } := by
      rcases hfd : fixDatasetPayload N d with ⟨d', logs⟩
      simp [itemRepair, fixArtifactPreview, hd, hfd]
    refine ⟨(fixDatasetPayload N d).1, by rw [hitem], ?_, ?_⟩
    · intro hlen
      rw [fixDatasetPayload_long N d hlen]
      refine ⟨rfl, ?_, ?_, ?_⟩
      · intro row hrow
        simp only [List.mem_map] at hrow
        rcases hrow with ⟨r0, _, hr0⟩
        rw [← hr0]
        simp
      · intro kv hkv
        rw [List.mem_filter] at hkv
        simpa using hkv.2
      · intro f hf nm hnm
        rw [List.mem_filter] at hf
        have := hf.2
        rw [hnm] at this
        simpa using this
    · intro hle
      rw [hitem, fixDatasetPayload_short N d hle]
      cases a with
      | mk i pr k u upd st =>
        simp at hd
        simp [hd]

/-- Witness for C6 (amended) at bound 2 on a 3-column dataset artifact. -/
theorem C6_preview_truncation_witness :
    ∃ d', (itemRepair 2 wC6Artifact).struct = .dataset d' ∧
      (2 < wC6Payload.header.length →
        d'.header = wC6Payload.header.take 2 ∧
        (∀ row ∈ d'.preview, row.length ≤ 2) ∧
        (∀ kv ∈ d'.stats, kv.1 ∉ wC6Payload.header.drop 2) ∧
        (∀ f ∈ d'.schemaFields, ∀ nm, f.name = some nm →
          nm ∉ wC6Payload.header.drop 2)) ∧
      (wC6Payload.header.length ≤ 2 → itemRepair 2 wC6Artifact = wC6Artifact) :=
  (C6_preview_truncation 2 [wC6Artifact]).2 wC6Artifact wC6Payload rfl

/-- C8: a per-item failure in the preview pass is caught: the failing artifact
is left unchanged, the failure diagnostic is logged, and every other artifact
(before and after it) is processed exactly as it would have been without the
failure — the pass itself never aborts. -/
theorem C8_preview_per_item_failure (N : Nat) (l1 l2 : List Artifact) (a : Artifact)
    (h : (fixArtifactPreview N a).2 = .error ()) :
    fixDatasetsLargePreviews N (l1 ++ a :: l2) =
      ((fixDatasetsLargePreviews N l1).1 ++ a :: (fixDatasetsLargePreviews N l2).1,
       (fixDatasetsLargePreviews N l1).2 ++ (fixArtifactPreview N a).1
         ++ [.failedFixingDataset] ++ (fixDatasetsLargePreviews N l2).2) := by
  induction l1 with
  | nil =>
    rcases hfp : fixArtifactPreview N a with ⟨logs, r⟩
    rw [hfp] at h
    simp at h
    subst h
    rcases hr : fixDatasetsLargePreviews N l2 with ⟨rest', logsR⟩
    simp [fixDatasetsLargePreviews, hfp, hr]
  | cons b l1 ih =>
    rcases hfb : fixArtifactPreview N b with ⟨logsB, rB⟩
    cases rB <;>
      simp [List.cons_append, fixDatasetsLargePreviews, hfb, ih, List.append_assoc]

/-- Witness for C8: a malformed artifact between two healthy ones is kept
unchanged and logged while both neighbours are processed. -/
theorem C8_preview_per_item_failure_witness :
    fixDatasetsLargePreviews 2 ([wC6Artifact] ++ malformedArtifact :: [cxC6Artifact]) =
      ((fixDatasetsLargePreviews 2 [wC6Artifact]).1 ++ malformedArtifact ::
          (fixDatasetsLargePreviews 2 [cxC6Artifact]).1,
       (fixDatasetsLargePreviews 2 [wC6Artifact]).2 ++
          (fixArtifactPreview 2 malformedArtifact).1
         ++ [.failedFixingDataset] ++ (fixDatasetsLargePreviews 2 [cxC6Artifact]).2) :=
  C8_preview_per_item_failure 2 [wC6Artifact] [cxC6Artifact] malformedArtifact rfl

/-- When every artifact is at `datetime.min`, the scanning loop never promotes
a best candidate and only accumulates the equal-time list. -/
lemma findLastUpdatedLoop_zero (l : List Artifact) (h : ∀ a ∈ l, a.updated = 0) :
    ∀ (last : Option Artifact) (same : List Artifact),
      findLastUpdatedLoop l last 0 same = (last, 0, same ++ l) := by
  induction l with
  | nil => intro last same; simp [findLastUpdatedLoop]
  | cons a rest ih =>
    intro last same
    have ha : a.updated = 0 := h a (by simp)
    rw [findLastUpdatedLoop, ha]
    simp only [Nat.lt_irrefl, if_false, beq_self_eq_true, if_true]
    rw [ih (fun b hb => h b (by simp [hb])) last (same ++ [a])]
    simp

/-- C7 (amended): when no artifact of the given group list has any `updated`
timestamp (all at `datetime.min`), `_find_last_updated_artifact` returns the
first artifact of the list it was given — the group in tag-listing order, not
the original full artifact listing — and emits the no-update-time diagnostic
(preceded by the ambiguous-tie diagnostic when the group has several
artifacts). -/
theorem C7_no_timestamp_tie_break (a0 : Artifact) (rest : List Artifact)
    (h : ∀ a ∈ a0 :: rest, a.updated = 0) :
    findLastUpdatedArtifact (a0 :: rest) =
      ((if rest.isEmpty then [] else
          [.sameUpdateTime ((a0 :: rest).map (fun a => a.id))])
         ++ [.noUpdateTime ((a0 :: rest).map (fun a => a.id))],
       .ok a0) := by
  rw [findLastUpdatedArtifact, findLastUpdatedLoop_zero _ h none []]
  cases rest <;> simp

/-- Witness for C7 (amended): two artifacts without update time, in an order
different from the listing order. -/
theorem C7_no_timestamp_tie_break_witness :
    findLastUpdatedArtifact [cxB2, cxB1] =
      ([.sameUpdateTime [2, 1], .noUpdateTime [2, 1]], .ok cxB2) := by
  rw [C7_no_timestamp_tie_break cxB2 [cxB1] (by decide)]
  rfl

/-- C7 counterexample: artifacts are listed `[cxB1, cxB2]` (so `cxB1` is the
first artifact of the original full artifact listing) and none has an update
time, yet the surviving tag of the duplicated group references `cxB2`, because
the tag listing enumerates `cxB2`'s tag first — the last-resort winner is the
first artifact of the group in tag order, not the first of the full listing. -/
theorem C7_first_of_listing_counterexample :
    (∀ a ∈ [cxB1, cxB2], a.updated = 0) ∧
    fixArtifactTagsDuplications [cxB1, cxB2] [cxS1, cxS2] =
      ([.sameUpdateTime [2, 1], .noUpdateTime [2, 1]], .ok [cxS1]) ∧
    cxS1.obj_id ≠ cxB1.id := by
  refine ⟨by decide, by rfl, by decide⟩

/-- The version-1 migration block starts with enrichment and deduplication and
at most adds the preview stage. -/
lemma performVersion1DataMigrations_fst (s : Store) :
    (performVersion1DataMigrations s).1 = [.repairEnrich, .repairDedup] ∨
    (performVersion1DataMigrations s).1 =
      [.repairEnrich, .repairDedup, .repairPreviews] := by
  rw [performVersion1DataMigrations]
  cases hfix : (fixArtifactTagsDuplications s.artifacts
      (Store.tags { s with projects := (enrichProjectState s.projects).1 })).2 with
  | error e => simp
  | ok sv => simp

/-- Evaluation of `_perform_data_migrations` on a stale version at least 1: the
marker is simply overwritten with the latest version. -/
lemma performDataMigrations_stale_high (cfg : Config) (s : Store) (v : Int)
    (hen : cfg.dataMigrationsEnabled = true) (hv : s.dataVersion = some v)
    (hne : v ≠ latest_data_version) (h1 : ¬ v < 1) :
    performDataMigrations cfg s =
      ([.markerWriteLatest], .ok { s with dataVersion := some latest_data_version }) := by
  have hbeq : (v == latest_data_version) = false := by simp [hne]
  simp [performDataMigrations, hen, hv, hbeq, h1]

/-- Evaluation of `_perform_data_migrations` on a version below 1: the
version-1 repair passes run and on success the marker is overwritten. -/
lemma performDataMigrations_stale_low (cfg : Config) (s : Store) (v : Int)
    (hen : cfg.dataMigrationsEnabled = true) (hv : s.dataVersion = some v)
    (h1 : v < 1) :
    performDataMigrations cfg s =
      (match performVersion1DataMigrations s with
       | (tr, .error e) => (tr, .error e)
       | (tr, .ok s1) =>
         (tr ++ [.markerWriteLatest],
          .ok { s1 with dataVersion := some latest_data_version })) := by
  have hne : v ≠ latest_data_version := by
    unfold latest_data_version
    omega
  have hbeq : (v == latest_data_version) = false := by simp [hne]
  simp [performDataMigrations, hen, hv, hbeq, h1]

/-- C10: with data migrations enabled and a stored version `v` different from
the latest known version, `_perform_data_migrations` overwrites the marker with
the latest version on every successful run; when `v` exceeds the latest version
the marker moves backwards and no repair pass runs at all; the version-1 repair
passes start exactly when `v` is strictly below 1. -/
theorem C10_marker_moves_to_latest (cfg : Config) (s : Store) (v : Int)
    (hen : cfg.dataMigrationsEnabled = true)
    (hv : s.dataVersion = some v) (hne : v ≠ latest_data_version) :
    (∀ s', (performDataMigrations cfg s).2 = .ok s' →
        s'.dataVersion = some latest_data_version) ∧
    (1 < v →
      performDataMigrations cfg s =
        ([.markerWriteLatest], .ok { s with dataVersion := some latest_data_version }) ∧
      latest_data_version < v) ∧
    (1 ≤ v →
      Stage.repairEnrich ∉ (performDataMigrations cfg s).1 ∧
      Stage.repairDedup ∉ (performDataMigrations cfg s).1 ∧
      Stage.repairPreviews ∉ (performDataMigrations cfg s).1) ∧
    (v < 1 → Stage.repairEnrich ∈ (performDataMigrations cfg s).1) := by
  by_cases hv1 : v < 1
  · rw [performDataMigrations_stale_low cfg s v hen hv hv1]
    rcases hm : performVersion1DataMigrations s with ⟨tr, r⟩
    have h01 := performVersion1DataMigrations_fst s
    rw [hm] at h01
    simp only [] at h01
    cases r with
    | error e =>
      refine ⟨?_, ?_, ?_, ?_⟩
      · intro s' hs'; simp at hs'
      · intro hgt; omega
      · intro hge; omega
      · intro _
        rcases h01 with rfl | rfl <;> simp
    | ok s1 =>
      refine ⟨?_, ?_, ?_, ?_⟩
      · intro s' hs'
        simp at hs'
        rw [← hs']
      · intro hgt; omega
      · intro hge; omega
      · intro _
        rcases h01 with rfl | rfl <;> simp
  · rw [performDataMigrations_stale_high cfg s v hen hv hne hv1]
    refine ⟨?_, ?_, ?_, ?_⟩
    · intro s' hs'
      simp at hs'
      rw [← hs']
    · intro _
      refine ⟨rfl, ?_⟩
      unfold latest_data_version
      omega
    · intro _
      refine ⟨by simp, by simp, by simp⟩
    · intro hlt; omega

/-- Witness for C10: a store whose marker holds 5 is moved back to version 1
with no repair pass running. -/
theorem C10_marker_moves_to_latest_witness :
    performDataMigrations cfgAllOn aheadStore =
      ([.markerWriteLatest], .ok { aheadStore with dataVersion := some latest_data_version }) ∧
    latest_data_version < 5 :=
  (C10_marker_moves_to_latest cfgAllOn aheadStore 5 rfl rfl (by decide)).2.1 (by decide)

/-- The marketplace seeding step contributes at most the seeding stage. -/
lemma addDefaultMarketplaceSource_trace (cfg : Config) (s : Store) :
    List.Sublist (addDefaultMarketplaceSource cfg s).2 [Stage.seedDefaults] := by
  rw [addDefaultMarketplaceSource]
  split
  · exact List.Sublist.refl _
  · exact List.nil_sublist _

/-- The marker-creation step contributes at most a resolution and the initial
marker write. -/
lemma addDataVersion_trace (s : Store) :
    List.Sublist (addDataVersion s).1
      [Stage.versionResolution, Stage.initialMarkerWrite] := by
  rw [addDataVersion]
  cases hdv : s.dataVersion with
  | some v => exact List.nil_sublist _
  | none =>
    rcases hr : resolveCurrentDataVersion (storeMarkerRead s) (some s.projects)
      with ⟨logs, r⟩
    cases r <;> simp

/-- `_add_initial_data`'s trace is the seeding trace followed by the
marker-creation trace. -/
lemma addInitialData_fst (cfg : Config) (s : Store) :
    (addInitialData cfg s).1 =
      (addDefaultMarketplaceSource cfg s).2 ++
        (addDataVersion (addDefaultMarketplaceSource cfg s).1).1 := by
  rw [addInitialData]

/-- The seeding trace followed by the marker-creation trace is at most the
seed/resolution/initial-write block. -/
lemma addInitialData_trace (cfg : Config) (s : Store) :
    List.Sublist (addInitialData cfg s).1
      [Stage.seedDefaults, Stage.versionResolution, Stage.initialMarkerWrite] := by
  rw [addInitialData_fst]
  exact (addDefaultMarketplaceSource_trace cfg s).append (addDataVersion_trace _)

/-- The data-migration step's trace is a sublist of the repair block followed
by the final marker write. -/
lemma performDataMigrations_trace (cfg : Config) (s : Store) :
    List.Sublist (performDataMigrations cfg s).1
      [Stage.repairEnrich, Stage.repairDedup, Stage.repairPreviews,
       Stage.markerWriteLatest] := by
  by_cases hen : cfg.dataMigrationsEnabled = true
  · cases hdv : s.dataVersion with
    | none =>
      simp [performDataMigrations, hen, hdv]
    | some v =>
      by_cases hne : v = latest_data_version
      · simp [performDataMigrations, hen, hdv, hne]
      · by_cases hv1 : v < 1
        · rw [performDataMigrations_stale_low cfg s v hen hdv hv1]
          rcases hm : performVersion1DataMigrations s with ⟨tr, r⟩
          have h01 := performVersion1DataMigrations_fst s
          rw [hm] at h01
          simp only [] at h01
          cases r with
          | error e => rcases h01 with rfl | rfl <;> simp
          | ok s1 => rcases h01 with rfl | rfl <;> simp
        · rw [performDataMigrations_stale_high cfg s v hen hdv hne hv1]
          simp
  · have hen' : cfg.dataMigrationsEnabled = false := by
      cases h : cfg.dataMigrationsEnabled
      · rfl
      · exact absurd h hen
    simp [performDataMigrations, hen']

/-- The trace of one full run, in terms of its four blocks. -/
lemma initData_fst (cfg : Config) (s : Store) :
    (initData cfg s).1 =
      [Stage.versionResolution, Stage.applySchema] ++
        ((if !cfg.fromScratch && cfg.databaseMigrationEnabled
            then [Stage.legacyTransfer] else []) ++
          ((addInitialData cfg s).1 ++
            (match (addInitialData cfg s).2 with
             | .error _ => []
             | .ok s1 => (performDataMigrations cfg s1).1))) := by
  rw [initData.eq_def]
  cases h2 : (addInitialData cfg s).2 with
  | error e => simp
  | ok s1 => simp

/-- C4 (amended): the stages of every orchestrator run occur in the fixed
relative order: version probe, schema application, legacy transfer, default
seeding, version resolution with the initial marker write, then (when the
version is stale) the repair passes in enrich/dedup/previews order and the
final marker write.  Default seeding therefore always happens before the
repair passes and before the final marker update, not after them. -/
theorem C4_stage_order (cfg : Config) (s : Store) :
    List.Sublist (initData cfg s).1 masterStageOrder := by
  have hmaster : masterStageOrder =
      [Stage.versionResolution, Stage.applySchema] ++
        ([Stage.legacyTransfer] ++
          ([Stage.seedDefaults, Stage.versionResolution, Stage.initialMarkerWrite] ++
            [Stage.repairEnrich, Stage.repairDedup, Stage.repairPreviews,
             Stage.markerWriteLatest])) := rfl
  have hlegacy :
      List.Sublist
        (if !cfg.fromScratch && cfg.databaseMigrationEnabled
          then [Stage.legacyTransfer] else [])
        [Stage.legacyTransfer] := by
    split
    · exact List.Sublist.refl _
    · exact List.nil_sublist _
  rw [initData_fst, hmaster]
  refine List.Sublist.append (List.Sublist.refl _)
    (List.Sublist.append hlegacy
      (List.Sublist.append (addInitialData_trace cfg s) ?_))
  cases h2 : (addInitialData cfg s).2 with
  | error e => exact List.nil_sublist _
  | ok s1 => exact performDataMigrations_trace cfg s1

/-- C4 counterexample: on a store at data version 0 with every switch enabled,
the run seeds the default marketplace source *before* the repair passes and
before the final marker write, contradicting the claimed
schema → transfer → resolution → repairs → marker → seeding order. -/
theorem C4_seeding_precedes_repairs_counterexample :
    Stage.seedDefaults ∈ (initData cfgAllOn c4Store).1 ∧
    Stage.repairEnrich ∈ (initData cfgAllOn c4Store).1 ∧
    Stage.markerWriteLatest ∈ (initData cfgAllOn c4Store).1 ∧
    (initData cfgAllOn c4Store).1.indexOf Stage.seedDefaults <
      (initData cfgAllOn c4Store).1.indexOf Stage.repairEnrich ∧
    (initData cfgAllOn c4Store).1.indexOf Stage.seedDefaults <
      (initData cfgAllOn c4Store).1.indexOf Stage.markerWriteLatest := by
  decide

/-! ### Deduplication pass: supporting lemmas -/

/-- Membership in the fold modelling Python set iteration. -/
lemma foldl_dedup_mem (l : List String) :
    ∀ (acc : List String) (x : String),
      (x ∈ l.foldl (fun acc x => if acc.contains x then acc else acc ++ [x]) acc ↔
        x ∈ acc ∨ x ∈ l) := by
  induction l with
  | nil => intro acc x; simp
  | cons a rest ih =>
    intro acc x
    rw [List.foldl_cons]
    by_cases h : acc.contains a
    · rw [if_pos h, ih]
      have ha : a ∈ acc := by simpa using h
      constructor
      · rintro (hx | hx)
        · exact Or.inl hx
        · exact Or.inr (by simp [hx])
      · rintro (hx | hx)
        · exact Or.inl hx
        · rcases List.mem_cons.mp hx with rfl | hx
          · exact Or.inl ha
          · exact Or.inr hx
    · rw [if_neg h, ih]
      constructor
      · rintro (hx | hx)
        · rcases List.mem_append.mp hx with hx | hx
          · exact Or.inl hx
          · simp at hx
            subst hx
            exact Or.inr (by simp)
        · exact Or.inr (by simp [hx])
      · rintro (hx | hx)
        · exact Or.inl (by simp [hx])
        · rcases List.mem_cons.mp hx with rfl | hx
          · exact Or.inl (by simp)
          · exact Or.inr hx

/-- `distinctInOrder` keeps exactly the members. -/
lemma distinctInOrder_mem {l : List String} {x : String} :
    x ∈ distinctInOrder l ↔ x ∈ l := by
  rw [distinctInOrder, foldl_dedup_mem]
  simp

/-- The tag-name fold is the distinct-names fold over the name projection. -/
lemma tagNames_eq (ts : List Tag) :
    tagNames ts = distinctInOrder (ts.map (fun t => t.name)) := by
  rw [tagNames, distinctInOrder, List.foldl_map]

/-- A name occurs among `tagNames ts` exactly when some tag bears it. -/
lemma tagNames_mem {ts : List Tag} {n : String} :
    n ∈ tagNames ts ↔ ∃ t ∈ ts, t.name = n := by
  rw [tagNames_eq, distinctInOrder_mem, List.mem_map]

/-- A hit in the artifact-record-id dict is a member with that id. -/
lemma dictLookup_eq_some {artifacts : List Artifact} {oid : Nat} {a : Artifact}
    (h : dictLookup artifacts oid = some a) : a ∈ artifacts ∧ a.id = oid := by
  have h1 := List.mem_of_find?_eq_some h
  have h2 := List.find?_some h
  exact ⟨List.mem_reverse.mp h1, by simpa using h2⟩

/-- Any member's id is found by the dict. -/
lemma dictLookup_isSome {artifacts : List Artifact} {oid : Nat}
    (h : ∃ a ∈ artifacts, a.id = oid) : (dictLookup artifacts oid).isSome := by
  rw [dictLookup, List.find?_isSome]
  rcases h with ⟨a, ha, rfl⟩
  exact ⟨a, List.mem_reverse.mpr ha, by simp⟩

/-- Every member's timestamp is bounded by the running maximum. -/
lemma le_maxUpd {l : List Artifact} {a : Artifact} (h : a ∈ l) :
    a.updated ≤ maxUpd l := by
  induction l with
  | nil => simp at h
  | cons b rest ih =>
    rcases List.mem_cons.mp h with rfl | h
    · rw [maxUpd]; exact Nat.le_max_left _ _
    · rw [maxUpd]; exact le_trans (ih h) (Nat.le_max_right _ _)

/-- A non-empty list attains its maximal timestamp. -/
lemma maxUpd_attained {l : List Artifact} (h : l ≠ []) :
    ∃ a ∈ l, a.updated = maxUpd l := by
  induction l with
  | nil => exact absurd rfl h
  | cons b rest ih =>
    by_cases hr : rest = []
    · subst hr
      exact ⟨b, by simp, by simp [maxUpd]⟩
    · rcases ih hr with ⟨a, ha, hmax⟩
      by_cases hb : maxUpd rest ≤ b.updated
      · exact ⟨b, by simp, by rw [maxUpd, Nat.max_eq_left hb]⟩
      · refine ⟨a, by simp [ha], ?_⟩
        rw [maxUpd, Nat.max_eq_right (Nat.le_of_not_le hb)]
        exact hmax

/-- What the scanning loop's best candidate is, in closed form: the first
member attaining the running maximum when the list improves on the incoming
bound, the incoming candidate otherwise. -/
lemma findLastUpdatedLoop_fst (l : List Artifact) :
    ∀ (last : Option Artifact) (t : Nat) (same : List Artifact),
      (findLastUpdatedLoop l last t same).1 =
        if t < maxUpd l then l.find? (fun a => a.updated == maxUpd l) else last := by
  induction l with
  | nil =>
    intro last t same
    simp [findLastUpdatedLoop, maxUpd]
  | cons a rest ih =>
    intro last t same
    have hm : maxUpd (a :: rest) = max a.updated (maxUpd rest) := rfl
    rw [findLastUpdatedLoop]
    by_cases h1 : t < a.updated
    · rw [if_pos h1, ih]
      by_cases h2 : a.updated < maxUpd rest
      · have hmax : maxUpd (a :: rest) = maxUpd rest := by
          rw [hm]; exact Nat.max_eq_right (Nat.le_of_lt h2)
        rw [if_pos h2, if_pos (by rw [hmax]; omega), hmax,
          List.find?_cons_of_neg _ (by simp; omega)]
      · have hmax : maxUpd (a :: rest) = a.updated := by
          rw [hm]; exact Nat.max_eq_left (Nat.le_of_not_lt h2)
        rw [if_neg h2, if_pos (by rw [hmax]; omega), hmax,
          List.find?_cons_of_pos _ (by simp)]
    · rw [if_neg h1]
      by_cases heq : (a.updated == t) = true
      · have hae : a.updated = t := by simpa using heq
        rw [if_pos heq, ih]
        by_cases h2 : t < maxUpd rest
        · have hmax : maxUpd (a :: rest) = maxUpd rest := by
            rw [hm]; exact Nat.max_eq_right (by omega)
          rw [if_pos h2, if_pos (by rw [hmax]; omega), hmax,
            List.find?_cons_of_neg _ (by simp; omega)]
        · have hmax : maxUpd (a :: rest) = t := by
            rw [hm, hae]; exact Nat.max_eq_left (Nat.le_of_not_lt h2)
          rw [if_neg h2, if_neg (by rw [hmax]; omega)]
      · have hae : a.updated ≠ t := by simpa using heq
        have hlt : a.updated < t := by omega
        rw [if_neg heq, ih]
        by_cases h2 : t < maxUpd rest
        · have hmax : maxUpd (a :: rest) = maxUpd rest := by
            rw [hm]; exact Nat.max_eq_right (by omega)
          rw [if_pos h2, if_pos (by rw [hmax]; omega), hmax,
            List.find?_cons_of_neg _ (by simp; omega)]
        · have hmax : ¬ t < maxUpd (a :: rest) := by
            rw [hm]
            have := Nat.le_of_not_lt h2
            omega
          rw [if_neg h2, if_neg hmax]

/-- On a non-empty list `_find_last_updated_artifact` succeeds and returns the
first artifact attaining the maximal `updated` timestamp. -/
lemma findLastUpdatedArtifact_ok {l : List Artifact} (h : l ≠ []) :
    ∃ w, firstMaxArtifact l = some w ∧ (findLastUpdatedArtifact l).2 = .ok w := by
  cases l with
  | nil => exact absurd rfl h
  | cons a0 rest =>
    rw [findLastUpdatedArtifact]
    have hfst := findLastUpdatedLoop_fst (a0 :: rest) none 0 []
    rcases hloop : findLastUpdatedLoop (a0 :: rest) none 0 [] with ⟨last, tm, same⟩
    rw [hloop] at hfst
    simp only [] at hfst
    by_cases h0 : 0 < maxUpd (a0 :: rest)
    · rw [if_pos h0] at hfst
      rcases maxUpd_attained h with ⟨b, hb, hbe⟩
      have hsome : ((a0 :: rest).find?
          (fun a => a.updated == maxUpd (a0 :: rest))).isSome := by
        rw [List.find?_isSome]
        exact ⟨b, hb, by simp [hbe]⟩
      rcases Option.isSome_iff_exists.mp hsome with ⟨w, hw⟩
      rw [hw] at hfst
      subst hfst
      exact ⟨w, hw, by simp⟩
    · rw [if_neg h0] at hfst
      subst hfst
      have hz : maxUpd (a0 :: rest) = 0 := Nat.eq_zero_of_not_pos h0
      have ha0 : a0.updated = 0 := by
        have := @le_maxUpd (a0 :: rest) a0 (by simp)
        omega
      refine ⟨a0, ?_, by simp⟩
      rw [firstMaxArtifact, hz, List.find?_cons_of_pos _ (by simp [ha0])]

/-- When every referenced id resolves, the lookup comprehension succeeds and
returns exactly the resolved artifacts. -/
lemma lookupAll_clean (artifacts : List Artifact) :
    ∀ (g : List Tag), (∀ t ∈ g, (dictLookup artifacts t.obj_id).isSome) →
      lookupAll artifacts g = some (groupArtifactsOf artifacts g) := by
  intro g h
  induction g with
  | nil => rfl
  | cons t rest ih =>
    rcases Option.isSome_iff_exists.mp (h t (by simp)) with ⟨a, ha⟩
    rw [lookupAll, ha, ih (fun u hu => h u (by simp [hu]))]
    rw [groupArtifactsOf, groupArtifactsOf, List.filterMap_cons, ha]

/-- When every referenced id resolves, the tag-collection loop warns about
nothing and returns the tags whose artifact bears the requested key. -/
lemma collectKeyTags_clean (artifacts : List Artifact) (k : String) :
    ∀ (ts : List Tag), (∀ t ∈ ts, (dictLookup artifacts t.obj_id).isSome) →
      collectKeyTags artifacts k ts =
        ([], .ok (ts.filter (tagKeyMatches artifacts k))) := by
  intro ts h
  induction ts with
  | nil => rfl
  | cons t rest ih =>
    rcases Option.isSome_iff_exists.mp (h t (by simp)) with ⟨a, ha⟩
    rw [collectKeyTags, ha, ih (fun u hu => h u (by simp [hu])), List.filter_cons]
    have hxm : tagKeyMatches artifacts k t = (a.key == k) := by
      rw [tagKeyMatches, ha]
    rw [hxm]

/-- Resolving every tag of a group yields as many artifacts as tags. -/
lemma groupArtifactsOf_length (artifacts : List Artifact) :
    ∀ (g : List Tag), (∀ t ∈ g, (dictLookup artifacts t.obj_id).isSome) →
      (groupArtifactsOf artifacts g).length = g.length := by
  intro g h
  induction g with
  | nil => rfl
  | cons t rest ih =>
    rcases Option.isSome_iff_exists.mp (h t (by simp)) with ⟨a, ha⟩
    have hrest := ih (fun u hu => h u (by simp [hu]))
    rw [groupArtifactsOf, List.filterMap_cons, ha] at *
    simp [hrest]

/-- On an orphan-free key group list, the group loop succeeds and marks exactly
the per-name losers. -/
lemma processGroups_clean (artifacts : List Artifact) (keyTags : List Tag)
    (hall : ∀ t ∈ keyTags, (dictLookup artifacts t.obj_id).isSome) :
    ∀ (names : List String),
      (∀ n ∈ names, keyTags.filter (fun t => t.name == n) ≠ []) →
      ∃ logs, processGroups artifacts keyTags names =
        (logs, .ok (names.flatMap (groupLosers artifacts keyTags))) := by
  intro names hne
  induction names with
  | nil => exact ⟨[], rfl⟩
  | cons n rest ih =>
    rcases ih (fun m hm => hne m (by simp [hm])) with ⟨logs2, ih2⟩
    by_cases h1 : ((keyTags.filter (fun t => t.name == n)).length == 1) = true
    · have hl : groupLosers artifacts keyTags n = [] := by
        rw [groupLosers]
        simp only [h1, if_true]
      refine ⟨logs2, ?_⟩
      rw [processGroups]
      simp only [h1, if_true]
      rw [ih2, List.flatMap_cons, hl, List.nil_append]
    · have hgne : keyTags.filter (fun t => t.name == n) ≠ [] := hne n (by simp)
      have hallg : ∀ t ∈ keyTags.filter (fun t => t.name == n),
          (dictLookup artifacts t.obj_id).isSome :=
        fun t ht => hall t (List.mem_filter.mp ht).1
      have hla := lookupAll_clean artifacts _ hallg
      have hgA : groupArtifactsOf artifacts
          (keyTags.filter (fun t => t.name == n)) ≠ [] := by
        intro hnil
        have hlen := groupArtifactsOf_length artifacts _ hallg
        rw [hnil] at hlen
        exact hgne (List.eq_nil_of_length_eq_zero hlen.symm)
      rcases findLastUpdatedArtifact_ok hgA with ⟨w, hfm, hok⟩
      rcases hfla : findLastUpdatedArtifact (groupArtifactsOf artifacts
          (keyTags.filter (fun t => t.name == n))) with ⟨logsW, r⟩
      rw [hfla] at hok
      simp only [] at hok
      subst hok
      have hwin : groupWinner artifacts (keyTags.filter (fun t => t.name == n))
          = some w := hfm
      have hl : groupLosers artifacts keyTags n =
          (keyTags.filter (fun t => t.name == n)).filter
            (fun t => !(t.obj_id == w.id)) := by
        rw [groupLosers]
        simp only [h1, if_false, hwin, Bool.false_eq_true]
      refine ⟨logsW ++ logs2, ?_⟩
      rw [processGroups]
      simp only [h1, Bool.false_eq_true, if_false, hla, hfla, ih2,
        List.flatMap_cons, hl]

/-- On an orphan-free store, one `(project, key)` iteration succeeds and marks
exactly the key's losers. -/
lemma processProjectKey_clean (artifacts : List Artifact) (tags : List Tag)
    (hall : ∀ t ∈ tags, (dictLookup artifacts t.obj_id).isSome) (k : String) :
    ∃ logs, processProjectKey artifacts tags k =
      (logs, .ok (keyLosers artifacts tags k)) := by
  have hc := collectKeyTags_clean artifacts k tags hall
  have hallk : ∀ t ∈ tags.filter (tagKeyMatches artifacts k),
      (dictLookup artifacts t.obj_id).isSome :=
    fun t ht => hall t (List.mem_filter.mp ht).1
  have hne : ∀ n ∈ tagNames (tags.filter (tagKeyMatches artifacts k)),
      (tags.filter (tagKeyMatches artifacts k)).filter (fun t => t.name == n) ≠ [] := by
    intro n hn
    rcases tagNames_mem.mp hn with ⟨t, ht, rfl⟩
    intro hnil
    have hmem : t ∈ (tags.filter (tagKeyMatches artifacts k)).filter
        (fun u => u.name == t.name) :=
      List.mem_filter.mpr ⟨ht, by simp⟩
    rw [hnil] at hmem
    simp at hmem
  rcases processGroups_clean artifacts _ hallk _ hne with ⟨logs, hpg⟩
  refine ⟨logs, ?_⟩
  rw [processProjectKey]
  simp only [hc, hpg, List.nil_append]
  rfl

/-- On an orphan-free store the outer loop succeeds, accumulating every
iterated key's losers. -/
lemma dedupLoop_clean (artifacts : List Artifact) (tags : List Tag)
    (hall : ∀ t ∈ tags, (dictLookup artifacts t.obj_id).isSome) :
    ∀ (pairs : List (String × String)),
      ∃ logs, dedupLoop artifacts tags pairs =
        (logs, .ok (pairs.flatMap (fun pk => keyLosers artifacts tags pk.2))) := by
  intro pairs
  induction pairs with
  | nil => exact ⟨[], rfl⟩
  | cons pk rest ih =>
    rcases ih with ⟨logs2, ih2⟩
    rcases processProjectKey_clean artifacts tags hall pk.2 with ⟨logs1, h1⟩
    refine ⟨logs1 ++ logs2, ?_⟩
    cases pk with
    | mk p k =>
      rw [dedupLoop, h1, ih2]
      simp [List.flatMap_cons]

/-- On an orphan-free store the deduplication pass succeeds and returns the
surviving tag rows. -/
lemma fixArtifactTagsDuplications_clean (artifacts : List Artifact) (tags : List Tag)
    (hall : ∀ t ∈ tags, (dictLookup artifacts t.obj_id).isSome) :
    ∃ logs, fixArtifactTagsDuplications artifacts tags =
      (logs, .ok (survivorsOf artifacts tags)) := by
  rcases dedupLoop_clean artifacts tags hall (projectKeyPairs artifacts) with ⟨logs, h⟩
  refine ⟨logs, ?_⟩
  rw [fixArtifactTagsDuplications, h]
  rfl

/-- A marked loser belongs to the name group it was computed from. -/
lemma groupLosers_subset {artifacts : List Artifact} {keyTags : List Tag}
    {n : String} {t : Tag} (h : t ∈ groupLosers artifacts keyTags n) :
    t ∈ keyTags ∧ t.name = n := by
  simp only [groupLosers] at h
  by_cases h1 : ((keyTags.filter (fun u => u.name == n)).length == 1) = true
  · simp only [h1, if_true] at h
    simp at h
  · simp only [h1, Bool.false_eq_true, if_false] at h
    rcases hw : groupWinner artifacts (keyTags.filter (fun u => u.name == n))
      with _ | w
    · rw [hw] at h
      simp at h
    · rw [hw] at h
      have h2 := List.mem_filter.mp (List.mem_filter.mp h).1
      exact ⟨h2.1, by simpa using h2.2⟩

/-- A key's loser belongs to the store and references that key. -/
lemma keyLosers_subset {artifacts : List Artifact} {tags : List Tag} {k : String}
    {t : Tag} (h : t ∈ keyLosers artifacts tags k) :
    t ∈ tags ∧ tagKeyMatches artifacts k t = true := by
  simp only [keyLosers] at h
  rw [List.mem_flatMap] at h
  rcases h with ⟨n, hn, hmem⟩
  have h1 := (groupLosers_subset hmem).1
  exact ⟨(List.mem_filter.mp h1).1, (List.mem_filter.mp h1).2⟩

/-- Every marked tag is a tag of the store. -/
lemma toDeleteOf_subset {artifacts : List Artifact} {tags : List Tag} {t : Tag}
    (h : t ∈ toDeleteOf artifacts tags) : t ∈ tags := by
  simp only [toDeleteOf] at h
  rw [List.mem_flatMap] at h
  rcases h with ⟨pk, _, hm⟩
  exact (keyLosers_subset hm).1

/-- Every artifact's `(project, key)` pair is iterated by the pass. -/
lemma projectKeyPairs_mem {artifacts : List Artifact} {a : Artifact}
    (h : a ∈ artifacts) : (a.project, a.key) ∈ projectKeyPairs artifacts := by
  rw [projectKeyPairs, List.mem_flatMap]
  refine ⟨a.project, ?_, ?_⟩
  · rw [artifactProjects, distinctInOrder_mem, List.mem_map]
    exact ⟨a, h, rfl⟩
  · rw [List.mem_map]
    refine ⟨a.key, ?_, rfl⟩
    rw [artifactKeysOf, distinctInOrder_mem, List.mem_map]
    exact ⟨a, List.mem_filter.mpr ⟨h, by simp⟩, rfl⟩

/-- A stored tag is marked for deletion exactly when it loses within its own
artifact's key. -/
lemma mem_toDeleteOf_iff {artifacts : List Artifact} {tags : List Tag} {t : Tag}
    {a : Artifact} (ha : dictLookup artifacts t.obj_id = some a) :
    t ∈ toDeleteOf artifacts tags ↔ t ∈ keyLosers artifacts tags a.key := by
  constructor
  · intro h
    simp only [toDeleteOf] at h
    rw [List.mem_flatMap] at h
    rcases h with ⟨pk, hpk, hm⟩
    have h2 := (keyLosers_subset hm).2
    rw [tagKeyMatches, ha] at h2
    have hk : a.key = pk.2 := by simpa using h2
    rw [← hk] at hm
    exact hm
  · intro h
    simp only [toDeleteOf]
    rw [List.mem_flatMap]
    exact ⟨(a.project, a.key), projectKeyPairs_mem (dictLookup_eq_some ha).1, h⟩

/-- The per-key/name group the pass computes is the key-wide name group. -/
lemma keyGroup_eq (artifacts : List Artifact) (tags : List Tag) (k n : String) :
    (tags.filter (tagKeyMatches artifacts k)).filter (fun t => t.name == n) =
      tags.filter (inKeyNameGroup artifacts k n) := by
  rw [List.filter_filter]
  rfl

/-- A tag of a key-wide name group loses for its key exactly when it loses in
its name group. -/
lemma mem_keyLosers_iff {artifacts : List Artifact} {tags : List Tag}
    {k n : String} {t : Tag}
    (htg : t ∈ tags.filter (inKeyNameGroup artifacts k n)) :
    t ∈ keyLosers artifacts tags k ↔
      t ∈ groupLosers artifacts (tags.filter (tagKeyMatches artifacts k)) n := by
  have hmem := List.mem_filter.mp htg
  have hname : t.name = n := by
    have hself := hmem.2
    rw [inKeyNameGroup, Bool.and_eq_true] at hself
    simpa using hself.1
  constructor
  · intro h
    simp only [keyLosers] at h
    rw [List.mem_flatMap] at h
    rcases h with ⟨n', hn', hm⟩
    have hn2 : t.name = n' := (groupLosers_subset hm).2
    rw [hname] at hn2
    rw [hn2]
    exact hm
  · intro h
    simp only [keyLosers]
    rw [List.mem_flatMap]
    refine ⟨n, ?_, h⟩
    rw [tagNames_mem]
    refine ⟨t, ?_, hname⟩
    have hkm : tagKeyMatches artifacts k t = true := by
      have hself := hmem.2
      rw [inKeyNameGroup, Bool.and_eq_true] at hself
      exact hself.2
    exact List.mem_filter.mpr ⟨hmem.1, hkm⟩

/-- In a duplicated group the loser set is the group minus the winner's tags. -/
lemma groupLosers_of_two {artifacts : List Artifact} {keyTags : List Tag}
    {n : String}
    (h2 : 2 ≤ (keyTags.filter (fun t => t.name == n)).length)
    {w : Artifact}
    (hw : groupWinner artifacts (keyTags.filter (fun t => t.name == n)) = some w) :
    groupLosers artifacts keyTags n =
      (keyTags.filter (fun t => t.name == n)).filter
        (fun t => !(t.obj_id == w.id)) := by
  have h1 : (((keyTags.filter (fun t => t.name == n)).length == 1)) = false := by
    simp
    omega
  simp only [groupLosers, h1, Bool.false_eq_true, if_false, hw]

/-- A group with at most one tag marks no loser. -/
lemma groupLosers_of_le_one {artifacts : List Artifact} {keyTags : List Tag}
    {n : String}
    (h : (keyTags.filter (fun t => t.name == n)).length ≤ 1) :
    groupLosers artifacts keyTags n = [] := by
  by_cases h1 : ((keyTags.filter (fun t => t.name == n)).length == 1) = true
  · simp only [groupLosers, h1, if_true]
  · have h0 : (keyTags.filter (fun t => t.name == n)).length = 0 := by
      simp at h1
      omega
    have hnil : keyTags.filter (fun t => t.name == n) = [] :=
      List.eq_nil_of_length_eq_zero h0
    simp only [groupLosers, h1, Bool.false_eq_true, if_false, hnil]
    rfl

/-- Id-based deletion membership agrees with row membership on unique ids. -/
lemma any_id_iff {tags : List Tag} (htids : (tags.map (fun t => t.id)).Nodup)
    {D : List Tag} (hD : ∀ d ∈ D, d ∈ tags) {t : Tag} (ht : t ∈ tags) :
    ((D.any (fun d => d.id == t.id)) = true) ↔ t ∈ D := by
  rw [List.any_eq_true]
  constructor
  · rintro ⟨d, hd, hdt⟩
    have hde : d = t :=
      List.inj_on_of_nodup_map htids (hD d hd) ht (by simpa using hdt)
    rw [← hde]
    exact hd
  · intro h
    exact ⟨t, h, by simp⟩

/-- A stored tag survives exactly when it is not marked for deletion. -/
lemma mem_survivorsOf_iff {artifacts : List Artifact} {tags : List Tag}
    (htids : (tags.map (fun t => t.id)).Nodup) {t : Tag} (ht : t ∈ tags) :
    t ∈ survivorsOf artifacts tags ↔ ¬ t ∈ toDeleteOf artifacts tags := by
  rw [survivorsOf, List.mem_filter]
  constructor
  · rintro ⟨_, hpred⟩
    intro hmem
    have hany := (any_id_iff htids (fun d hd => toDeleteOf_subset hd) ht).mpr hmem
    rw [hany] at hpred
    simp at hpred
  · intro hnot
    refine ⟨ht, ?_⟩
    cases hany : (toDeleteOf artifacts tags).any (fun d => d.id == t.id) with
    | false => simp [hany]
    | true =>
      exact absurd ((any_id_iff htids (fun d hd => toDeleteOf_subset hd) ht).mp hany)
        hnot

/-- A nodup list whose members all equal `w`, containing `w`, is `[w]`. -/
lemma nodup_all_eq_singleton {α : Type _} (L : List α) (w : α) (hnd : L.Nodup)
    (hw : w ∈ L) (hall : ∀ x ∈ L, x = w) : L = [w] := by
  cases L with
  | nil => simp at hw
  | cons a rest =>
    have ha : a = w := hall a (by simp)
    subst ha
    have hrest : rest = [] := by
      cases rest with
      | nil => rfl
      | cons b rest2 =>
        have hb : b = a := hall b (by simp)
        rw [List.nodup_cons] at hnd
        exact absurd (by rw [← hb]; simp) hnd.1
    rw [hrest]

/-- Survivors of a key-wide name group, in closed form: the group filtered by
the survive test. -/
lemma survivors_filter_group_eq (artifacts : List Artifact) (tags : List Tag)
    (k n : String) :
    (survivorsOf artifacts tags).filter (inKeyNameGroup artifacts k n) =
      (tags.filter (inKeyNameGroup artifacts k n)).filter
        (fun t => !((toDeleteOf artifacts tags).any (fun d => d.id == t.id))) := by
  rw [survivorsOf, List.filter_filter, List.filter_filter]
  exact List.filter_congr (fun x _ => Bool.and_comm _ _)

/-- Master lemma: in every key-wide name group at most one tag survives, and a
duplicated group keeps exactly one tag — the one referencing the first
artifact of the group (in tag order) attaining the maximal `updated`
timestamp. -/
lemma survivors_group (artifacts : List Artifact) (tags : List Tag)
    (hwf : DedupWF artifacts tags) (k n : String) :
    ((survivorsOf artifacts tags).filter (inKeyNameGroup artifacts k n)).length ≤ 1 ∧
    (2 ≤ (tags.filter (inKeyNameGroup artifacts k n)).length →
      ∃ w, (survivorsOf artifacts tags).filter (inKeyNameGroup artifacts k n) = [w] ∧
        dictLookup artifacts w.obj_id =
          groupWinner artifacts (tags.filter (inKeyNameGroup artifacts k n))) := by
  obtain ⟨haids, htids, hall, hpairs⟩ := hwf
  by_cases h2 : 2 ≤ (tags.filter (inKeyNameGroup artifacts k n)).length
  · -- the duplicated case: find the winner and its unique surviving tag
    have hallg : ∀ t ∈ tags.filter (inKeyNameGroup artifacts k n),
        (dictLookup artifacts t.obj_id).isSome :=
      fun t ht => hall t (List.mem_filter.mp ht).1
    have hgne : tags.filter (inKeyNameGroup artifacts k n) ≠ [] := by
      intro hnil
      rw [hnil] at h2
      simp at h2
    have hGA : groupArtifactsOf artifacts
        (tags.filter (inKeyNameGroup artifacts k n)) ≠ [] := by
      intro hnil
      have hlen := groupArtifactsOf_length artifacts _ hallg
      rw [hnil] at hlen
      exact hgne (List.eq_nil_of_length_eq_zero hlen.symm)
    have hwin : ∃ w, groupWinner artifacts
        (tags.filter (inKeyNameGroup artifacts k n)) = some w := by
      rcases maxUpd_attained hGA with ⟨b, hb, hbe⟩
      have hs : (firstMaxArtifact (groupArtifactsOf artifacts
          (tags.filter (inKeyNameGroup artifacts k n)))).isSome := by
        rw [firstMaxArtifact, List.find?_isSome]
        exact ⟨b, hb, by simp [hbe]⟩
      exact Option.isSome_iff_exists.mp hs
    rcases hwin with ⟨w, hw⟩
    have hw_mem : w ∈ groupArtifactsOf artifacts
        (tags.filter (inKeyNameGroup artifacts k n)) := by
      have hw' := hw
      rw [groupWinner, firstMaxArtifact] at hw'
      exact List.mem_of_find?_eq_some hw'
    rcases List.mem_filterMap.mp hw_mem with ⟨t0, ht0g, ht0l⟩
    have ht0id : w.id = t0.obj_id := (dictLookup_eq_some ht0l).2
    have hkey : ∀ t ∈ tags.filter (inKeyNameGroup artifacts k n),
        ∃ a, dictLookup artifacts t.obj_id = some a ∧ a.key = k := by
      intro t ht
      have hing := (List.mem_filter.mp ht).2
      rw [inKeyNameGroup, Bool.and_eq_true] at hing
      have hkm := hing.2
      rw [tagKeyMatches] at hkm
      cases hl : dictLookup artifacts t.obj_id with
      | none =>
        rw [hl] at hkm
        simp at hkm
      | some a =>
        rw [hl] at hkm
        simp at hkm
        exact ⟨a, rfl, hkm⟩
    have hdel : ∀ t ∈ tags.filter (inKeyNameGroup artifacts k n),
        (t ∈ toDeleteOf artifacts tags ↔ ¬ t.obj_id = w.id) := by
      intro t ht
      rcases hkey t ht with ⟨a, hla, hak⟩
      rw [mem_toDeleteOf_iff hla, hak, mem_keyLosers_iff ht]
      have h2' : 2 ≤ ((tags.filter (tagKeyMatches artifacts k)).filter
          (fun u => u.name == n)).length := by
        rw [keyGroup_eq]
        exact h2
      have hw' : groupWinner artifacts ((tags.filter (tagKeyMatches artifacts k)).filter
          (fun u => u.name == n)) = some w := by
        rw [keyGroup_eq]
        exact hw
      rw [groupLosers_of_two h2' hw', List.mem_filter]
      constructor
      · rintro ⟨_, hb⟩
        simpa using hb
      · intro hne
        refine ⟨?_, by simpa using hne⟩
        rw [keyGroup_eq]
        exact ht
    have hsurv : ∀ t ∈ tags.filter (inKeyNameGroup artifacts k n),
        (t ∈ survivorsOf artifacts tags ↔ t.obj_id = w.id) := by
      intro t ht
      have hts : t ∈ tags := (List.mem_filter.mp ht).1
      rw [mem_survivorsOf_iff htids hts, hdel t ht]
      exact not_not
    have ht0s : t0 ∈ survivorsOf artifacts tags :=
      (hsurv t0 ht0g).mpr ht0id.symm
    have ht0L : t0 ∈ (survivorsOf artifacts tags).filter
        (inKeyNameGroup artifacts k n) :=
      List.mem_filter.mpr ⟨ht0s, (List.mem_filter.mp ht0g).2⟩
    have huniq : ∀ x ∈ (survivorsOf artifacts tags).filter
        (inKeyNameGroup artifacts k n), x = t0 := by
      intro x hx
      have hxs := (List.mem_filter.mp hx).1
      have hxing := (List.mem_filter.mp hx).2
      have hxt : x ∈ tags := by
        rw [survivorsOf] at hxs
        exact (List.mem_filter.mp hxs).1
      have hxg : x ∈ tags.filter (inKeyNameGroup artifacts k n) :=
        List.mem_filter.mpr ⟨hxt, hxing⟩
      have hxw : x.obj_id = w.id := (hsurv x hxg).mp hxs
      have ht0w : t0.obj_id = w.id := ht0id.symm
      have hxn : x.name = n := by
        have hing := hxing
        rw [inKeyNameGroup, Bool.and_eq_true] at hing
        simpa using hing.1
      have ht0n : t0.name = n := by
        have hing := (List.mem_filter.mp ht0g).2
        rw [inKeyNameGroup, Bool.and_eq_true] at hing
        simpa using hing.1
      have ht0t : t0 ∈ tags := (List.mem_filter.mp ht0g).1
      exact List.inj_on_of_nodup_map hpairs hxt ht0t
        (by rw [hxn, ht0n, hxw, ht0w])
    have hnd : ((survivorsOf artifacts tags).filter
        (inKeyNameGroup artifacts k n)).Nodup := by
      have h0 : tags.Nodup := List.Nodup.of_map _ htids
      rw [survivorsOf]
      exact (h0.filter _).filter _
    have hsingleton := nodup_all_eq_singleton _ t0 hnd ht0L huniq
    constructor
    · rw [hsingleton]
      exact Nat.le_refl 1
    · intro _
      exact ⟨t0, hsingleton, by rw [ht0l, hw]⟩
  · -- no duplication: at most one tag in the group, nothing to show beyond it
    refine ⟨?_, fun h => absurd h h2⟩
    rw [survivors_filter_group_eq]
    have hle := List.length_filter_le
      (fun t => !((toDeleteOf artifacts tags).any (fun d => d.id == t.id)))
      (tags.filter (inKeyNameGroup artifacts k n))
    omega

/-- When every name group is a singleton the group loop does nothing. -/
lemma processGroups_all_singleton (artifacts : List Artifact) (keyTags : List Tag) :
    ∀ (names : List String),
      (∀ n ∈ names, (keyTags.filter (fun t => t.name == n)).length = 1) →
      processGroups artifacts keyTags names = ([], .ok []) := by
  intro names h
  induction names with
  | nil => rfl
  | cons n rest ih =>
    have h1 : ((keyTags.filter (fun t => t.name == n)).length == 1) = true := by
      simp [h n (by simp)]
    rw [processGroups]
    simp only [h1, if_true]
    exact ih (fun m hm => h m (by simp [hm]))

/-- Running the deduplication pass on its own output deletes nothing. -/
lemma fixArtifactTagsDuplications_survivors (artifacts : List Artifact)
    (tags : List Tag) (hwf : DedupWF artifacts tags) :
    fixArtifactTagsDuplications artifacts (survivorsOf artifacts tags) =
      ([], .ok (survivorsOf artifacts tags)) := by
  obtain ⟨haids, htids, hall, hpairs⟩ := hwf
  have hwf' : DedupWF artifacts tags := ⟨haids, htids, hall, hpairs⟩
  have hsub : ∀ t ∈ survivorsOf artifacts tags, t ∈ tags := by
    intro t ht
    rw [survivorsOf] at ht
    exact (List.mem_filter.mp ht).1
  have hall2 : ∀ t ∈ survivorsOf artifacts tags,
      (dictLookup artifacts t.obj_id).isSome :=
    fun t ht => hall t (hsub t ht)
  have hkeyproc : ∀ k, processProjectKey artifacts (survivorsOf artifacts tags) k
      = ([], .ok []) := by
    intro k
    have hc := collectKeyTags_clean artifacts k (survivorsOf artifacts tags) hall2
    have hsingle : ∀ n ∈ tagNames ((survivorsOf artifacts tags).filter
        (tagKeyMatches artifacts k)),
        (((survivorsOf artifacts tags).filter
          (tagKeyMatches artifacts k)).filter (fun t => t.name == n)).length = 1 := by
      intro n hn
      have hle : (((survivorsOf artifacts tags).filter
          (tagKeyMatches artifacts k)).filter (fun t => t.name == n)).length ≤ 1 := by
        rw [keyGroup_eq]
        exact (survivors_group artifacts tags hwf' k n).1
      have hge : 1 ≤ (((survivorsOf artifacts tags).filter
          (tagKeyMatches artifacts k)).filter (fun t => t.name == n)).length := by
        rcases tagNames_mem.mp hn with ⟨t, ht, rfl⟩
        have hm : t ∈ ((survivorsOf artifacts tags).filter
            (tagKeyMatches artifacts k)).filter (fun u => u.name == t.name) :=
          List.mem_filter.mpr ⟨ht, by simp⟩
        have := List.length_pos_of_mem hm
        omega
      omega
    have hpg := processGroups_all_singleton artifacts _ _ hsingle
    rw [processProjectKey]
    simp only [hc, hpg]
    rfl
  have hloop : ∀ pairs, dedupLoop artifacts (survivorsOf artifacts tags) pairs
      = ([], .ok []) := by
    intro pairs
    induction pairs with
    | nil => rfl
    | cons pk rest ih =>
      cases pk with
      | mk p k =>
        rw [dedupLoop, hkeyproc k, ih]
        rfl
  rw [fixArtifactTagsDuplications, hloop]
  simp

/-- A fully enriched project is a fixed point of the enrichment body. -/
lemma enrichProject_of_set {p : Project} (h1 : p.spec_desired_state.isSome)
    (h2 : p.status_state.isSome) :
    (enrichProject p).1 = p ∧ (enrichProject p).2 = false := by
  cases p with
  | mk nm ds st =>
    cases ds with
    | none => simp at h1
    | some d =>
      cases st with
      | none => simp at h2
      | some t => simp [enrichProject]

/-- Re-running the project enrichment pass changes nothing and persists
nothing. -/
lemma enrichProjectState_idem (ps : List Project) :
    enrichProjectState (enrichProjectState ps).1 = ((enrichProjectState ps).1, []) := by
  have hset : ∀ q ∈ (enrichProjectState ps).1,
      q.spec_desired_state.isSome ∧ q.status_state.isSome := by
    intro q hq
    rcases List.mem_map.mp hq with ⟨p, _, hpq⟩
    rw [enrichProject_fst] at hpq
    subst hpq
    exact ⟨rfl, rfl⟩
  have hfix : ∀ q ∈ (enrichProjectState ps).1,
      (enrichProject q).1 = q ∧ (enrichProject q).2 = false :=
    fun q hq => enrichProject_of_set (hset q hq).1 (hset q hq).2
  have hmap : ((enrichProjectState ps).1).map (fun p => (enrichProject p).1) =
      (enrichProjectState ps).1 := by
    rw [List.map_congr_left (fun q hq => (hfix q hq).1)]
    exact List.map_id _
  have hfil : ((enrichProjectState ps).1).filter (fun p => (enrichProject p).2) = [] := by
    rw [List.filter_congr (fun q hq => (hfix q hq).2)]
    exact List.filter_false _
  conv_lhs => rw [enrichProjectState]
  rw [hmap, hfil]
  rfl

/-- Re-running the item repair is the item repair. -/
lemma itemRepair_idem (N : Nat) (a : Artifact) :
    itemRepair N (itemRepair N a) = itemRepair N a := by
  cases hs : a.struct with
  | malformed =>
    have h1 : itemRepair N a = a := by
      simp [itemRepair, fixArtifactPreview, hs]
    rw [h1]
    exact h1
  | other kd =>
    have h1 : itemRepair N a = a := by
      simp [itemRepair, fixArtifactPreview, hs]
    rw [h1]
    exact h1
  | dataset d =>
    have h1 : itemRepair N a = { a with struct := .dataset (fixDatasetPayload N d).1 } := by
      rcases hfd : fixDatasetPayload N d with ⟨d', logs⟩
      simp [itemRepair, fixArtifactPreview, hs, hfd]
    by_cases hlen : N < d.header.length
    · have hshort : (fixDatasetPayload N d).1.header.length ≤ N := by
        rw [fixDatasetPayload_long N d hlen]
        simp
      have h2 : fixDatasetPayload N (fixDatasetPayload N d).1 =
          ((fixDatasetPayload N d).1, []) :=
        fixDatasetPayload_short N _ hshort
      rw [h1]
      simp [itemRepair, fixArtifactPreview, h2]
    · have hd0 : fixDatasetPayload N d = (d, []) :=
        fixDatasetPayload_short N d (Nat.le_of_not_lt hlen)
      have h1' : itemRepair N a = a := by
        rw [h1, hd0]
        cases a with
        | mk i pr k u upd st =>
          simp at hs
          simp [hs]
      rw [h1']
      exact h1'

/-- Re-running the preview pass leaves the artifact table unchanged. -/
lemma fixDatasetsLargePreviews_idem (N : Nat) (l : List Artifact) :
    (fixDatasetsLargePreviews N ((fixDatasetsLargePreviews N l).1)).1 =
      (fixDatasetsLargePreviews N l).1 := by
  rw [fixDatasetsLargePreviews_fst, fixDatasetsLargePreviews_fst, List.map_map]
  exact List.map_congr_left (fun a _ => itemRepair_idem N a)

/-- The seeding step never unsets the source, never re-seeds afterwards, and
leaves every other table untouched. -/
lemma addDefaultMarketplaceSource_facts (cfg : Config) (s : Store) :
    (!(addDefaultMarketplaceSource cfg s).1.hubSource &&
        cfg.createDefaultSource) = false ∧
    (addDefaultMarketplaceSource cfg s).1.dataVersion = s.dataVersion ∧
    (addDefaultMarketplaceSource cfg s).1.projects = s.projects ∧
    (addDefaultMarketplaceSource cfg s).1.artifacts = s.artifacts ∧
    (addDefaultMarketplaceSource cfg s).1.tags = s.tags := by
  rw [addDefaultMarketplaceSource]
  by_cases hc : (!s.hubSource && cfg.createDefaultSource) = true
  · rw [if_pos hc]
    simp
  · rw [if_neg hc]
    have hcf : (!s.hubSource && cfg.createDefaultSource) = false := by
      cases hcc : (!s.hubSource && cfg.createDefaultSource) with
      | false => rfl
      | true => exact absurd hcc hc
    simp [hcf]

/-- A successful marker-creation step yields a store with a marker, changing
nothing but possibly the marker. -/
lemma addDataVersion_ok_facts {s : Store} {s1 : Store}
    (h : (addDataVersion s).2 = .ok s1) :
    s1.dataVersion.isSome ∧ s1.projects = s.projects ∧
    s1.artifacts = s.artifacts ∧ s1.tags = s.tags ∧
    s1.hubSource = s.hubSource := by
  cases hdv : s.dataVersion with
  | some v =>
    rw [addDataVersion.eq_def, hdv] at h
    simp only [] at h
    injection h with h1
    rw [← h1, hdv]
    exact ⟨rfl, rfl, rfl, rfl, rfl⟩
  | none =>
    rw [addDataVersion.eq_def, hdv] at h
    rcases hr : resolveCurrentDataVersion (storeMarkerRead s) (some s.projects)
      with ⟨rlogs, rres⟩
    rw [hr] at h
    cases rres with
    | ok v =>
      simp only [] at h
      injection h with h1
      rw [← h1]
      exact ⟨rfl, rfl, rfl, rfl, rfl⟩
    | error e => simp at h

/-- A store that already has a marker is a fixed point of the marker-creation
step. -/
lemma addDataVersion_noop {s : Store} (h1 : s.dataVersion.isSome) :
    addDataVersion s = ([], .ok s) := by
  rcases Option.isSome_iff_exists.mp h1 with ⟨v, hv⟩
  rw [addDataVersion.eq_def, hv]

/-- After a successful `_add_initial_data`, the marker exists, the default
source will not be seeded again, and the data tables are untouched. -/
lemma addInitialData_ok_facts {cfg : Config} {s : Store} {tr : List Stage}
    {s1 : Store} (h : addInitialData cfg s = (tr, .ok s1)) :
    s1.dataVersion.isSome ∧ (!s1.hubSource && cfg.createDefaultSource) = false ∧
    s1.projects = s.projects ∧ s1.artifacts = s.artifacts ∧ s1.tags = s.tags := by
  have hsnd : (addDataVersion (addDefaultMarketplaceSource cfg s).1).2 = .ok s1 := by
    have := congrArg Prod.snd h
    exact this
  have hdv := addDataVersion_ok_facts hsnd
  have hmk := addDefaultMarketplaceSource_facts cfg s
  refine ⟨hdv.1, ?_, ?_, ?_, ?_⟩
  · rw [hdv.2.2.2.2]
    exact hmk.1
  · rw [hdv.2.1]
    exact hmk.2.2.1
  · rw [hdv.2.2.1]
    exact hmk.2.2.2.1
  · rw [hdv.2.2.2.1]
    exact hmk.2.2.2.2

/-- A store whose marker exists and whose default source needs no seeding is a
fixed point of `_add_initial_data`. -/
lemma addInitialData_noop {cfg : Config} {s : Store} (h1 : s.dataVersion.isSome)
    (h2 : (!s.hubSource && cfg.createDefaultSource) = false) :
    addInitialData cfg s = ([], .ok s) := by
  have hmk : addDefaultMarketplaceSource cfg s = (s, []) := by
    rw [addDefaultMarketplaceSource, if_neg (by simp [h2])]
  rw [addInitialData, hmk]
  simp [addDataVersion_noop h1]

/-- A store already at the latest version is a fixed point of
`_perform_data_migrations`. -/
lemma performDataMigrations_noop {cfg : Config} {s : Store}
    (hv : s.dataVersion = some latest_data_version) :
    performDataMigrations cfg s = ([], .ok s) := by
  by_cases hen : cfg.dataMigrationsEnabled = true
  · simp [performDataMigrations, hen, hv]
  · have hen' : cfg.dataMigrationsEnabled = false := by
      cases hcc : cfg.dataMigrationsEnabled with
      | false => rfl
      | true => exact absurd hcc hen
    simp [performDataMigrations, hen']

/-- A successful `_perform_data_migrations` ends on the latest version (when
enabled) and never touches the marketplace-source row. -/
lemma performDataMigrations_ok_facts {cfg : Config} {s : Store} {tr : List Stage}
    {s' : Store} (h : performDataMigrations cfg s = (tr, .ok s')) :
    s'.hubSource = s.hubSource ∧
    (cfg.dataMigrationsEnabled = true → s'.dataVersion = some latest_data_version) ∧
    (cfg.dataMigrationsEnabled = false → s' = s) := by
  by_cases hen : cfg.dataMigrationsEnabled = true
  · cases hdv : s.dataVersion with
    | none =>
      rw [performDataMigrations, if_pos hen, hdv] at h
      have := congrArg Prod.snd h
      simp at this
    | some v =>
      by_cases hne : v = latest_data_version
      · rw [performDataMigrations, if_pos hen, hdv] at h
        rw [hne] at h
        simp only [beq_self_eq_true, if_true] at h
        have hs : s = s' := by
          have := congrArg Prod.snd h
          simpa using this
        rw [← hs]
        refine ⟨rfl, fun _ => ?_, fun hf => absurd hen (by simp [hf])⟩
        rw [hdv, hne]
      · by_cases hv1 : v < 1
        · rw [performDataMigrations_stale_low cfg s v hen hdv hv1] at h
          rcases hm : performVersion1DataMigrations s with ⟨trm, r⟩
          rw [hm] at h
          cases r with
          | error e =>
            have := congrArg Prod.snd h
            simp at this
          | ok sm =>
            have hsm : sm.hubSource = s.hubSource := by
              rw [performVersion1DataMigrations] at hm
              cases hfix : (fixArtifactTagsDuplications s.artifacts
                  (Store.tags { s with
                    projects := (enrichProjectState s.projects).1 })).2 with
              | error e => rw [hfix] at hm; simp at hm
              | ok sv =>
                rw [hfix] at hm
                simp only [] at hm
                have := congrArg Prod.snd hm
                simp at this
                rw [← this]
            have hs' : { sm with dataVersion := some latest_data_version } = s' := by
              have := congrArg Prod.snd h
              simpa using this
            rw [← hs']
            exact ⟨hsm, fun _ => rfl, fun hf => absurd hen (by simp [hf])⟩
        · rw [performDataMigrations_stale_high cfg s v hen hdv hne hv1] at h
          have hs' : { s with dataVersion := some latest_data_version } = s' := by
            have := congrArg Prod.snd h
            simpa using this
          rw [← hs']
          exact ⟨rfl, fun _ => rfl, fun hf => absurd hen (by simp [hf])⟩
  · have hen' : cfg.dataMigrationsEnabled = false := by
      cases hcc : cfg.dataMigrationsEnabled with
      | false => rfl
      | true => exact absurd hcc hen
    rw [performDataMigrations, if_neg (by simp [hen'])] at h
    have hs : s = s' := by
      have := congrArg Prod.snd h
      simpa using this
    rw [← hs]
    exact ⟨rfl, fun ht => absurd ht (by simp [hen']), fun _ => rfl⟩

/-- C3 counterexample: a well-formed store (unique ids, no orphans, unique
`(name, obj_id)` pairs) where two projects share the artifact key `k`.  The
specification's group `(p1, k, t)` holds the two tags `cxT1, cxT2` — so the
claim demands exactly one survivor referencing `cxA2` (updated 6, the group
maximum) — but the pass, which groups by key only (source line 204), lumps in
project `p2`'s artifact `cxA3` (updated 10), deletes both of `p1`'s tags, and
leaves the group empty. -/
theorem C3_cross_project_counterexample :
    DedupWF [cxA1, cxA2, cxA3] [cxT1, cxT2, cxT3] ∧
    2 ≤ ([cxT1, cxT2, cxT3].filter
      (tagInGroup [cxA1, cxA2, cxA3] "p1" "k" "t")).length ∧
    fixArtifactTagsDuplications [cxA1, cxA2, cxA3] [cxT1, cxT2, cxT3] =
      ([], .ok [cxT3]) ∧
    [cxT3].filter (tagInGroup [cxA1, cxA2, cxA3] "p1" "k" "t") = [] := by
  refine ⟨by decide, by decide, by rfl, by rfl⟩

/-- C3 (amended): on a well-formed store (unique artifact and tag record ids,
no orphan tags, no duplicated `(name, obj_id)` tag pair) in which no two
projects share an artifact key, the pass leaves, for every
`(project, key, tag-name)` group with at least two tag rows, exactly one tag —
and that tag references the first artifact of the group (in tag-listing order)
attaining the maximal `updated` timestamp. -/
theorem C3_tag_dedup_convergence (artifacts : List Artifact) (tags : List Tag)
    (hwf : DedupWF artifacts tags) (hdisj : ProjectKeysDisjoint artifacts)
    (p k n : String)
    (hlen : 2 ≤ (tags.filter (tagInGroup artifacts p k n)).length) :
    ∃ logs survivors w,
      fixArtifactTagsDuplications artifacts tags = (logs, .ok survivors) ∧
      survivors.filter (tagInGroup artifacts p k n) = [w] ∧
      dictLookup artifacts w.obj_id =
        groupWinner artifacts (tags.filter (tagInGroup artifacts p k n)) := by
  have hwf' := hwf
  obtain ⟨haids, htids, hall, hpairs⟩ := hwf
  have hg_ne : tags.filter (tagInGroup artifacts p k n) ≠ [] := by
    intro hnil
    rw [hnil] at hlen
    simp at hlen
  obtain ⟨t1, ht1⟩ := List.exists_mem_of_ne_nil _ hg_ne
  have ht1m := List.mem_filter.mp ht1
  have ht1g := ht1m.2
  rw [tagInGroup, Bool.and_eq_true] at ht1g
  rcases hl1 : dictLookup artifacts t1.obj_id with _ | a1
  · rw [hl1] at ht1g
    simp at ht1g
  · rw [hl1] at ht1g
    have hpk1 : a1.project = p ∧ a1.key = k := by
      have := ht1g.2
      simp at this
      exact this
    have hpt : ∀ t ∈ tags,
        tagInGroup artifacts p k n t = inKeyNameGroup artifacts k n t := by
      intro t _
      rw [tagInGroup, inKeyNameGroup, tagKeyMatches]
      cases hl : dictLookup artifacts t.obj_id with
      | none => rfl
      | some a =>
        by_cases hk : a.key = k
        · have hp : a.project = p := by
            have ha_mem := (dictLookup_eq_some hl).1
            have ha1_mem := (dictLookup_eq_some hl1).1
            have := hdisj a ha_mem a1 ha1_mem (by rw [hk, hpk1.2])
            rw [this, hpk1.1]
          simp [hp, hk]
        · have hkb : (a.key == k) = false := by simp [hk]
          simp [hkb]
    have hGeq : tags.filter (tagInGroup artifacts p k n) =
        tags.filter (inKeyNameGroup artifacts k n) := List.filter_congr hpt
    rcases fixArtifactTagsDuplications_clean artifacts tags hall with ⟨logs, hfix⟩
    have hsg := (survivors_group artifacts tags hwf' k n).2 (by rw [← hGeq]; exact hlen)
    rcases hsg with ⟨w, hws, hwl⟩
    refine ⟨logs, survivorsOf artifacts tags, w, hfix, ?_, ?_⟩
    · rw [← hws]
      apply List.filter_congr
      intro x hx
      have hxt : x ∈ tags := by
        rw [survivorsOf] at hx
        exact (List.mem_filter.mp hx).1
      exact hpt x hxt
    · rw [hwl, hGeq]

/-- Witness for C3 (amended): one project, two tags named `t` on two artifacts
updated at 5 and 6; exactly the tag of the later artifact survives. -/
theorem C3_tag_dedup_convergence_witness :
    ∃ logs survivors w,
      fixArtifactTagsDuplications [cxA1, cxA2] [cxT1, cxT2] =
        (logs, .ok survivors) ∧
      survivors.filter (tagInGroup [cxA1, cxA2] "p1" "k" "t") = [w] ∧
      dictLookup [cxA1, cxA2] w.obj_id =
        groupWinner [cxA1, cxA2]
          ([cxT1, cxT2].filter (tagInGroup [cxA1, cxA2] "p1" "k" "t")) :=
  C3_tag_dedup_convergence [cxA1, cxA2] [cxT1, cxT2] (by decide) (by decide)
    "p1" "k" "t" (by decide)

/-- C2: a second run of `init_data` on the store a successful run produced
returns that store unchanged; moreover each repair pass is idempotent on its
own: re-running project-state enrichment changes and persists nothing,
re-running preview truncation leaves the artifact table unchanged, and
re-running tag deduplication on the surviving tags of a successful pass (on a
well-formed store) deletes nothing. -/
theorem C2_migration_idempotent (cfg : Config) (s s' : Store)
    (h : (initData cfg s).2 = .ok s')
    (ps : List Project) (N : Nat) (l : List Artifact)
    (artifacts : List Artifact) (tags sv : List Tag)
    (hwf : DedupWF artifacts tags)
    (hfix : (fixArtifactTagsDuplications artifacts tags).2 = .ok sv) :
    (initData cfg s').2 = .ok s' ∧
    enrichProjectState (enrichProjectState ps).1 = ((enrichProjectState ps).1, []) ∧
    (fixDatasetsLargePreviews N (fixDatasetsLargePreviews N l).1).1 =
      (fixDatasetsLargePreviews N l).1 ∧
    fixArtifactTagsDuplications artifacts sv = ([], .ok sv) := by
  refine ⟨?_, enrichProjectState_idem ps, fixDatasetsLargePreviews_idem N l, ?_⟩
  · rw [initData.eq_def] at h
    rcases haid2 : (addInitialData cfg s).2 with e | s1
    · rw [haid2] at h
      simp at h
    · rw [haid2] at h
      simp only [] at h
      rcases haid : addInitialData cfg s with ⟨tr1, r1⟩
      have hr1 : r1 = .ok s1 := by
        rw [haid] at haid2
        exact haid2
      subst hr1
      rcases hpm : performDataMigrations cfg s1 with ⟨tr2, r2⟩
      rw [hpm] at h
      simp only [] at h
      cases r2 with
      | error e => simp at h
      | ok s2 =>
        have hs2 : s2 = s' := by simpa using h
        subst hs2
        have hf1 := addInitialData_ok_facts haid
        have hf2 := performDataMigrations_ok_facts hpm
        have hver : s2.dataVersion.isSome := by
          by_cases hen : cfg.dataMigrationsEnabled = true
          · rw [hf2.2.1 hen]
            rfl
          · have hen' : cfg.dataMigrationsEnabled = false := by
              cases hcc : cfg.dataMigrationsEnabled with
              | false => rfl
              | true => exact absurd hcc hen
            rw [hf2.2.2 hen']
            exact hf1.1
        have hhub : (!s2.hubSource && cfg.createDefaultSource) = false := by
          rw [hf2.1]
          exact hf1.2.1
        have hnoop1 := @addInitialData_noop cfg s2 hver hhub
        have hnoop2 : performDataMigrations cfg s2 = ([], .ok s2) := by
          by_cases hen : cfg.dataMigrationsEnabled = true
          · exact performDataMigrations_noop (hf2.2.1 hen)
          · have hen' : cfg.dataMigrationsEnabled = false := by
              cases hcc : cfg.dataMigrationsEnabled with
              | false => rfl
              | true => exact absurd hcc hen
            rw [performDataMigrations, if_neg (by simp [hen'])]
        rw [initData.eq_def]
        simp [hnoop1, hnoop2]
  · rcases fixArtifactTagsDuplications_clean artifacts tags hwf.2.2.1 with ⟨logs, hcl⟩
    have hsv : sv = survivorsOf artifacts tags := by
      rw [hcl] at hfix
      exact (by simpa using hfix : survivorsOf artifacts tags = sv).symm
    rw [hsv]
    exact fixArtifactTagsDuplications_survivors artifacts tags hwf

/-- Witness for C2: the concrete store at version 0 reaches `c2Final`, on which
a second full run is the identity; the pass-level idempotence facts are
instantiated on small concrete tables. -/
theorem C2_migration_idempotent_witness :
    (initData cfgAllOn c2Final).2 = .ok c2Final ∧
    enrichProjectState (enrichProjectState [⟨"p", none, none⟩]).1 =
      ((enrichProjectState [⟨"p", none, none⟩]).1, []) ∧
    (fixDatasetsLargePreviews 2 (fixDatasetsLargePreviews 2 [wC6Artifact]).1).1 =
      (fixDatasetsLargePreviews 2 [wC6Artifact]).1 ∧
    fixArtifactTagsDuplications [cxA1, cxA2] [cxT2] = ([], .ok [cxT2]) :=
  C2_migration_idempotent cfgAllOn c4Store c2Final (by rfl)
    [⟨"p", none, none⟩] 2 [wC6Artifact] [cxA1, cxA2] [cxT1, cxT2] [cxT2]
    (by decide) (by rfl)

end InitialData
